import Mathlib

/-!
# Verification of the `t_prompts` diff layer

A shallow embedding of `src/t_prompts/diff.py` and of the parent-link
discipline of `src/t_prompts/structured_prompt.py`, together with theorems
settling the frozen claims about them.

Conventions of the embedding:

* Python machine behaviour that can raise is modelled with `Except PyErr`;
  an `AttributeError` on a missing attribute is `PyErr.attrError name`.
* Python `str` is Lean `String`; `difflib.SequenceMatcher` is embedded
  generically over lists (strings are matched as their character lists,
  exactly as Python iterates a `str`).
* Python dicts that are only ever read point-wise are modelled as functions
  built by successive updates.
* `ir.py` and `exceptions.py` are not part of the sources; the chunk data
  shapes and `PromptReuseError` are modelled from the spec (see the doc
  comments on those definitions).
-/

namespace TPrompts

/-- A Python runtime error relevant to the diff layer: an `AttributeError`
naming the missing attribute, or a `ValueError` with its message. -/
inductive PyErr where
  | attrError (attr : String)
  | valueError (msg : String)
deriving DecidableEq, Repr

/-- A Python element key: `int` for static segments, `str` for interpolations
(field `key : Union[str, int]` of `Element` in `element.py`). -/
inductive PyKey where
  | intKey (n : Nat)
  | strKey (s : String)
deriving DecidableEq, Repr

/-- The Python runtime class of a node, as used by `type(x)` comparisons in
`diff.py` (the five `Element` variants of `element.py` plus
`StructuredPrompt`). -/
inductive Ty where
  | staticTy
  | textTy
  | nestedTy
  | listTy
  | imageTy
  | promptTy
deriving DecidableEq, Repr

/-- `type(x).__name__` for each modelled class. -/
def Ty.name : Ty → String
  | .staticTy => "Static"
  | .textTy => "TextInterpolation"
  | .nestedTy => "NestedPromptInterpolation"
  | .listTy => "ListInterpolation"
  | .imageTy => "ImageInterpolation"
  | .promptTy => "StructuredPrompt"

/-- Opcode tags of `difflib.SequenceMatcher.get_opcodes`, also used for
`TextEdit.op` and the chunk-level ops of `diff.py`. -/
inductive Tag where
  | equal
  | insert
  | delete
  | replace
deriving DecidableEq, Repr

/-! ## `difflib.SequenceMatcher` (no junk, `autojunk=False`)

`diff.py` instantiates `SequenceMatcher(a=…, b=…, autojunk=False)` with no
junk predicate, both for character-level string diffs (`_diff_strings`) and
for signature-level chunk alignment (`_diff_chunks`).  The embedding below
follows CPython's `difflib` with the junk machinery dropped (with no junk
and `autojunk=False` every junk set is empty, so the junk-extension loops
of `find_longest_match` never run). -/

namespace SeqMatch

variable {α : Type} [DecidableEq α]

/-- One `(tag, i1, i2, j1, j2)` entry of `get_opcodes`. -/
structure Opcode where
  tag : Tag
  i1 : Nat
  i2 : Nat
  j1 : Nat
  j2 : Nat
deriving DecidableEq, Repr

/-- `__chain_b`: `b2j` maps an element of `b` to the ascending list of its
indices in `b` (Python builds it by appending indices in order). -/
def b2j (b : List α) : α → List Nat :=
  b.enum.foldl (fun m p => fun y => if y = p.2 then m y ++ [p.1] else m y) (fun _ => [])

/-- Inner loop of `find_longest_match` over the b-indices of `a[i]`
(`continue` below `blo`, `break` at `bhi`), threading `newj2len` and the
current best `(besti, bestj, bestsize)`.  Python reads `j2len.get(j-1, 0)`;
for `j = 0` the key `-1` is absent, hence the explicit zero. -/
def flmInner (blo bhi i : Nat) (j2len : Nat → Nat) :
    List Nat → (Nat → Nat) → (Nat × Nat × Nat) → ((Nat → Nat) × (Nat × Nat × Nat))
  | [], newj2len, best => (newj2len, best)
  | j :: js, newj2len, best =>
    if j < blo then flmInner blo bhi i j2len js newj2len best
    else if bhi ≤ j then (newj2len, best)
    else
      let k := (if j = 0 then 0 else j2len (j - 1)) + 1
      let newj2len' := fun x => if x = j then k else newj2len x
      let best' := if best.2.2 < k then (i + 1 - k, j + 1 - k, k) else best
      flmInner blo bhi i j2len js newj2len' best'

/-- Outer loop of `find_longest_match` over `i ∈ [alo, ahi)`. -/
def flmOuter (a : List α) (bj : α → List Nat) (blo bhi : Nat) :
    List Nat → (Nat → Nat) → (Nat × Nat × Nat) → (Nat × Nat × Nat)
  | [], _, best => best
  | i :: rest, j2len, best =>
    let js := match a.get? i with
      | some x => bj x
      | none => []
    let (newj2len, best') := flmInner blo bhi i j2len js (fun _ => 0) best
    flmOuter a bj blo bhi rest newj2len best'

/-- The backwards extension loop
`while besti > alo and bestj > blo and a[besti-1] == b[bestj-1]`.
`besti` strictly decreases, so `besti` itself bounds the iterations. -/
def extendBack (a b : List α) (alo blo : Nat) :
    Nat → (Nat × Nat × Nat) → (Nat × Nat × Nat)
  | 0, best => best
  | fuel + 1, (besti, bestj, bestsize) =>
    if alo < besti ∧ blo < bestj then
      match a.get? (besti - 1), b.get? (bestj - 1) with
      | some x, some y =>
        if x = y then extendBack a b alo blo fuel (besti - 1, bestj - 1, bestsize + 1)
        else (besti, bestj, bestsize)
      | _, _ => (besti, bestj, bestsize)
    else (besti, bestj, bestsize)

/-- The forwards extension loop
`while besti+bestsize < ahi and bestj+bestsize < bhi and a[...] == b[...]`.
`ahi - (besti + bestsize)` bounds the iterations. -/
def extendFwd (a b : List α) (ahi bhi : Nat) :
    Nat → (Nat × Nat × Nat) → (Nat × Nat × Nat)
  | 0, best => best
  | fuel + 1, (besti, bestj, bestsize) =>
    if besti + bestsize < ahi ∧ bestj + bestsize < bhi then
      match a.get? (besti + bestsize), b.get? (bestj + bestsize) with
      | some x, some y =>
        if x = y then extendFwd a b ahi bhi fuel (besti, bestj, bestsize + 1)
        else (besti, bestj, bestsize)
      | _, _ => (besti, bestj, bestsize)
    else (besti, bestj, bestsize)

/-- `find_longest_match(alo, ahi, blo, bhi)` on sequences `a`, `b`. -/
def findLongestMatch (a b : List α) (bj : α → List Nat) (alo ahi blo bhi : Nat) :
    Nat × Nat × Nat :=
  let best := flmOuter a bj blo bhi (List.range' alo (ahi - alo)) (fun _ => 0) (alo, blo, 0)
  let best := extendBack a b alo blo best.1 best
  extendFwd a b ahi bhi (ahi - (best.1 + best.2.2)) best

/-- The queue-driven loop of `get_matching_blocks`.  Python pops from the end
of the list (a stack); each iteration removes a range and pushes sub-ranges
whose total size is at least two smaller, so `la + lb + 1` iterations always
suffice (the blocks are sorted afterwards, so the exploration order does not
affect the result). -/
def gmbLoop (a b : List α) (bj : α → List Nat) :
    Nat → List (Nat × Nat × Nat × Nat) → List (Nat × Nat × Nat) → List (Nat × Nat × Nat)
  | 0, _, acc => acc
  | _ + 1, [], acc => acc
  | fuel + 1, (alo, ahi, blo, bhi) :: queue, acc =>
    let (i, j, k) := findLongestMatch a b bj alo ahi blo bhi
    if k ≠ 0 then
      let hi := if i + k < ahi ∧ j + k < bhi then [(i + k, ahi, j + k, bhi)] else []
      let lo := if alo < i ∧ blo < j then [(alo, i, blo, j)] else []
      gmbLoop a b bj fuel (hi ++ lo ++ queue) (acc ++ [(i, j, k)])
    else gmbLoop a b bj fuel queue acc

/-- Ascending lexicographic order on `(i, j, k)` triples, as
`matching_blocks.sort()` orders tuples. -/
def blockLe (x y : Nat × Nat × Nat) : Bool :=
  x.1 < y.1 ∨ (x.1 = y.1 ∧ (x.2.1 < y.2.1 ∨ (x.2.1 = y.2.1 ∧ x.2.2 ≤ y.2.2)))

/-- Insertion step of the block sort. -/
def insertBlock (x : Nat × Nat × Nat) : List (Nat × Nat × Nat) → List (Nat × Nat × Nat)
  | [] => [x]
  | y :: ys => if blockLe x y then x :: y :: ys else y :: insertBlock x ys

/-- Sort the matching blocks ascending (blocks are pairwise distinct, so any
correct sort agrees with Python's stable sort). -/
def sortBlocks (l : List (Nat × Nat × Nat)) : List (Nat × Nat × Nat) :=
  l.foldr insertBlock []

/-- The adjacency-merging pass of `get_matching_blocks`, started from the
accumulator `(0, 0, 0)` exactly as in Python. -/
def mergeAdjacent : (Nat × Nat × Nat) → List (Nat × Nat × Nat) → List (Nat × Nat × Nat)
  | (i1, j1, k1), [] => if k1 ≠ 0 then [(i1, j1, k1)] else []
  | (i1, j1, k1), (i2, j2, k2) :: rest =>
    if i1 + k1 = i2 ∧ j1 + k1 = j2 then mergeAdjacent (i1, j1, k1 + k2) rest
    else (if k1 ≠ 0 then [(i1, j1, k1)] else []) ++ mergeAdjacent (i2, j2, k2) rest

/-- `get_matching_blocks`, including the `(la, lb, 0)` sentinel. -/
def getMatchingBlocks (a b : List α) : List (Nat × Nat × Nat) :=
  let bj := b2j b
  let blocks := gmbLoop a b bj (a.length + b.length + 1) [(0, a.length, 0, b.length)] []
  mergeAdjacent (0, 0, 0) (sortBlocks blocks) ++ [(a.length, b.length, 0)]

/-- The answer-building loop of `get_opcodes`, threading the cursor `(i, j)`. -/
def opcodesFromBlocks : Nat → Nat → List (Nat × Nat × Nat) → List Opcode
  | _, _, [] => []
  | i, j, (ai, bj, size) :: rest =>
    let head : List Opcode :=
      if i < ai ∧ j < bj then [⟨.replace, i, ai, j, bj⟩]
      else if i < ai then [⟨.delete, i, ai, j, bj⟩]
      else if j < bj then [⟨.insert, i, ai, j, bj⟩]
      else []
    let eq : List Opcode :=
      if size ≠ 0 then [⟨.equal, ai, ai + size, bj, bj + size⟩] else []
    head ++ eq ++ opcodesFromBlocks (ai + size) (bj + size) rest

/-- `SequenceMatcher(a=a, b=b, autojunk=False).get_opcodes()`. -/
def getOpcodes (a b : List α) : List Opcode :=
  opcodesFromBlocks 0 0 (getMatchingBlocks a b)

end SeqMatch

/-! ## Leaf text diff (`TextEdit`, `_diff_strings`, `diff.py` lines 20–32, 434–445) -/

/-- `TextEdit`: atomic text edit for leaf comparisons. -/
structure TextEdit where
  op : Tag
  before : String
  after : String
deriving DecidableEq, Repr

/-- `TextEdit.added_chars`. -/
def TextEdit.added_chars (e : TextEdit) : Nat :=
  if e.op = .insert ∨ e.op = .replace then e.after.length else 0

/-- `TextEdit.removed_chars`. -/
def TextEdit.removed_chars (e : TextEdit) : Nat :=
  if e.op = .delete ∨ e.op = .replace then e.before.length else 0

/-- Python slice `s[i:j]` on a string. -/
def strSlice (s : String) (i j : Nat) : String :=
  String.mk ((s.toList.drop i).take (j - i))

/-- `_diff_strings`: equal strings short-circuit to the empty edit list;
otherwise a character-level `SequenceMatcher` opcode pass. -/
def _diff_strings (before after : String) : List TextEdit :=
  if before = after then []
  else
    (SeqMatch.getOpcodes before.toList after.toList).map fun oc =>
      ⟨oc.tag, strSlice before oc.i1 oc.i2, strSlice after oc.j1 oc.j2⟩

/-! ## The element data model (`element.py`, `structured_prompt.py`)

`StructuredPrompt` (a `Mapping`, not an `Element`) owns an ordered list of
children; `NestedPromptInterpolation` owns one sub-prompt and
`ListInterpolation` owns a list of sub-prompts.  The cyclic back-references
(`parent`, `parent_element`) are upward-only and unused by the diff layer,
so they are not part of the tree value; the parent-link write discipline is
modelled separately below.  `source_location` and `metadata` are opaque
attachments the diff layer never reads and are omitted.  Image payloads are
modelled as opaque strings. -/

mutual
/-- `StructuredPrompt`: unique `id` plus the ordered children
(`_children`: statics interleaved with interpolations). -/
inductive SP where
  | mk (id : String) (children : List Element)

/-- The five `Element` variants of `element.py`, with the fields the diff
layer reads. -/
inductive Element where
  | static (key : Nat) (index : Nat) (id : String) (value : String)
  | textInterp (key : String) (index : Nat) (id : String) (expression : String)
      (conversion : Option String) (format_spec : String) (render_hints : String)
      (value : String)
  | nestedInterp (key : String) (index : Nat) (id : String) (expression : String)
      (conversion : Option String) (format_spec : String) (render_hints : String)
      (value : SP)
  | listInterp (key : String) (index : Nat) (id : String) (expression : String)
      (conversion : Option String) (format_spec : String) (render_hints : String)
      (items : List SP) (separator : String)
  | imageInterp (key : String) (index : Nat) (id : String) (expression : String)
      (conversion : Option String) (format_spec : String) (render_hints : String)
      (value : String)
end

mutual
/-- Structural size of an `Element` (for recursion measures). -/
def Element.sz : Element → Nat
  | .static .. => 1
  | .textInterp .. => 1
  | .imageInterp .. => 1
  | .nestedInterp _ _ _ _ _ _ _ v => SP.sz v + 1
  | .listInterp _ _ _ _ _ _ _ items _ => szListSP items + 1

/-- Structural size of an `SP`. -/
def SP.sz : SP → Nat
  | .mk _ children => szListElem children + 1

/-- Sum of sizes of a list of sub-prompts. -/
def szListSP : List SP → Nat
  | [] => 0
  | p :: ps => SP.sz p + szListSP ps

/-- Sum of sizes of a list of elements. -/
def szListElem : List Element → Nat
  | [] => 0
  | e :: es => Element.sz e + szListElem es
end

/-- `prompt.id`. -/
def SP.pid : SP → String
  | .mk i _ => i

/-- `prompt.children`. -/
def SP.children : SP → List Element
  | .mk _ cs => cs

/-- `element.key`. -/
def Element.key : Element → PyKey
  | .static k _ _ _ => .intKey k
  | .textInterp k _ _ _ _ _ _ _ => .strKey k
  | .nestedInterp k _ _ _ _ _ _ _ => .strKey k
  | .listInterp k _ _ _ _ _ _ _ _ => .strKey k
  | .imageInterp k _ _ _ _ _ _ _ => .strKey k

/-- `element.index`. -/
def Element.index : Element → Nat
  | .static _ i _ _ => i
  | .textInterp _ i _ _ _ _ _ _ => i
  | .nestedInterp _ i _ _ _ _ _ _ => i
  | .listInterp _ i _ _ _ _ _ _ _ => i
  | .imageInterp _ i _ _ _ _ _ _ => i

/-- `element.id`. -/
def Element.eid : Element → String
  | .static _ _ i _ => i
  | .textInterp _ _ i _ _ _ _ _ => i
  | .nestedInterp _ _ i _ _ _ _ _ => i
  | .listInterp _ _ i _ _ _ _ _ _ => i
  | .imageInterp _ _ i _ _ _ _ _ => i

/-- The runtime class of an element. -/
def Element.ty : Element → Ty
  | .static .. => .staticTy
  | .textInterp .. => .textTy
  | .nestedInterp .. => .nestedTy
  | .listInterp .. => .listTy
  | .imageInterp .. => .imageTy

/-- A value passed around the diff layer: an `Element` or a whole
`StructuredPrompt` (both diff entry points hand trees straight to code whose
annotations expect `Element`). -/
inductive Node where
  | elem (e : Element)
  | sp (p : SP)

/-- Size of a `Node`. -/
def Node.sz : Node → Nat
  | .elem e => e.sz
  | .sp p => p.sz

/-- The runtime class of a node. -/
def Node.ty : Node → Ty
  | .elem e => e.ty
  | .sp _ => .promptTy

/-- `x.id`: defined on both elements and prompts. -/
def Node.idAttr : Node → String
  | .elem e => e.eid
  | .sp p => p.pid

/-- `x.key`: an attribute of `Element` only — `StructuredPrompt` has no
`key`, so the access raises `AttributeError`. -/
def Node.keyAttr : Node → Except PyErr PyKey
  | .elem e => .ok e.key
  | .sp _ => .error (.attrError "key")

/-- `x.index`: an attribute of `Element` only — `StructuredPrompt` has no
`index`, so the access raises `AttributeError`. -/
def Node.indexAttr : Node → Except PyErr Nat
  | .elem e => .ok e.index
  | .sp _ => .error (.attrError "index")

/-- `getattr(x, field, None)` for the fields `_compare_attributes` queries
(`expression`, `conversion`, `format_spec`, `render_hints`, `separator`,
and `value` — the last only queried on image pairs). -/
def pyGetattr : Node → String → Option String
  | .elem (.textInterp _ _ _ ex cv fs rh v), f =>
    if f = "expression" then some ex
    else if f = "conversion" then cv
    else if f = "format_spec" then some fs
    else if f = "render_hints" then some rh
    else if f = "value" then some v
    else none
  | .elem (.nestedInterp _ _ _ ex cv fs rh _), f =>
    if f = "expression" then some ex
    else if f = "conversion" then cv
    else if f = "format_spec" then some fs
    else if f = "render_hints" then some rh
    else none
  | .elem (.listInterp _ _ _ ex cv fs rh _ sep), f =>
    if f = "expression" then some ex
    else if f = "conversion" then cv
    else if f = "format_spec" then some fs
    else if f = "render_hints" then some rh
    else if f = "separator" then some sep
    else none
  | .elem (.imageInterp _ _ _ ex cv fs rh v), f =>
    if f = "expression" then some ex
    else if f = "conversion" then cv
    else if f = "format_spec" then some fs
    else if f = "render_hints" then some rh
    else if f = "value" then some v
    else none
  | .elem (.static _ _ _ v), f => if f = "value" then some v else none
  | .sp _, _ => none

/-- The field set of `_compare_attributes` (a Python `set`; its iteration
order is unspecified, and nothing in the claims depends on the order of the
resulting `attr_changes`, so a fixed order is used). -/
def compareFields (before after : Node) : List String :=
  let base := ["expression", "conversion", "format_spec", "render_hints"]
  let base := if before.ty = .listTy ∧ after.ty = .listTy then base ++ ["separator"] else base
  if before.ty = .imageTy ∧ after.ty = .imageTy then base ++ ["value"] else base

/-- `_compare_attributes` (`diff.py` lines 407–423): record every queried
field whose values differ. -/
def _compare_attributes (before after : Node) :
    List (String × (Option String × Option String)) :=
  (compareFields before after).filterMap fun f =>
    if pyGetattr before f ≠ pyGetattr after f then
      some (f, (pyGetattr before f, pyGetattr after f))
    else none

/-- `_diff_text` (`diff.py` lines 426–431): leaf text diff for
`Static`/`Static` and `TextInterpolation`/`TextInterpolation` pairs only. -/
def _diff_text (before after : Node) : List TextEdit :=
  match before, after with
  | .elem (.static _ _ _ bv), .elem (.static _ _ _ av) => _diff_strings bv av
  | .elem (.textInterp _ _ _ _ _ _ _ bv), .elem (.textInterp _ _ _ _ _ _ _ av) =>
    _diff_strings bv av
  | _, _ => []

/-- `_iter_children` (`diff.py` lines 448–453): a prompt yields its
children; a `ListInterpolation` is iterated through the attribute
`item_elements`, which the class (a frozen slots dataclass whose list field
is `items`) does not define, so the access raises `AttributeError`; every
other element yields `()`. -/
def _iter_children : Node → Except PyErr (List Element)
  | .sp p => .ok p.children
  | .elem (.listInterp ..) => .error (.attrError "item_elements")
  | .elem _ => .ok []

/-! ## Child matching (`_match_children`, `diff.py` lines 456–482) -/

/-- The `(child.key, type(child))` signature children are matched by. -/
def elemSig (e : Element) : PyKey × Ty := (e.key, e.ty)

/-- The `lookup` dict of `_match_children`: built by appending each
enumerated after-child to the bucket of its signature, so each bucket lists
its children in ascending index order. -/
def buildLookup (enumAfter : List (Nat × Element)) : (PyKey × Ty) → List (Nat × Element) :=
  enumAfter.foldl
    (fun m p => fun sig => if sig = elemSig p.2 then m sig ++ [p] else m sig)
    (fun _ => [])

/-- The before-pass loop of `_match_children`: each before-child pops the
head of its signature bucket (`bucket.pop(0)`) if the bucket is non-empty,
recording the consumed index in `used_after`; otherwise it pairs with
`None`. -/
def matchLoop :
    List Element → ((PyKey × Ty) → List (Nat × Element)) → List Nat →
      List (Option Element × Option Element) × List Nat
  | [], _, used => ([], used)
  | b :: bs, lookup, used =>
    match lookup (elemSig b) with
    | [] =>
      let r := matchLoop bs lookup used
      ((some b, none) :: r.1, r.2)
    | (idx, m) :: rest =>
      let lookup' := fun sig => if sig = elemSig b then rest else lookup sig
      let r := matchLoop bs lookup' (used ++ [idx])
      ((some b, some m) :: r.1, r.2)

/-- `_match_children`: the before pass, then the unconsumed after-children
appended in order as insertion pairs. -/
def _match_children (before_children after_children : List Element) :
    List (Option Element × Option Element) :=
  let r := matchLoop before_children (buildLookup after_children.enum) []
  r.1 ++ (after_children.enum.filter (fun p => !r.2.contains p.1)).map
    (fun p => (none, some p.2))

/-- Remove the first entry of `l` whose element has signature `sig`,
returning it and the remainder (`none` if no entry matches). -/
def extractFirstMatch (sig : PyKey × Ty) :
    List (Nat × Element) → Option ((Nat × Element) × List (Nat × Element))
  | [] => none
  | p :: ps =>
    if elemSig p.2 = sig then some (p, ps)
    else
      match extractFirstMatch sig ps with
      | some (m, rest) => some (m, p :: rest)
      | none => none

/-- The matching policy as the claim words it: iterate the before-children
in order, pairing each with the first not-yet-consumed after-child of the
same `(key, variant type)`; unmatched before-children pair with `none` in
place.  Returns the pairs and the never-consumed after-children. -/
def greedyFirstAvailable :
    List Element → List (Nat × Element) →
      List (Option Element × Option Element) × List (Nat × Element)
  | [], avail => ([], avail)
  | b :: bs, avail =>
    match extractFirstMatch (elemSig b) avail with
    | some (m, avail') =>
      let r := greedyFirstAvailable bs avail'
      ((some b, some m.2) :: r.1, r.2)
    | none =>
      let r := greedyFirstAvailable bs avail
      ((some b, none) :: r.1, r.2)

/-- The claim's description of `_match_children` in full: the greedy
first-available before pass, then every never-consumed after-child appended
(in order) as an insertion pair. -/
def greedyMatchSpec (bs as : List Element) : List (Option Element × Option Element) :=
  let r := greedyFirstAvailable bs as.enum
  r.1 ++ r.2.map (fun p => (none, some p.2))

/-! ### `_match_children` is exactly the greedy first-available policy -/

/-- Boolean signature test used throughout the matching proofs. -/
def sigP (sig : PyKey × Ty) : Nat × Element → Bool := fun p => decide (elemSig p.2 = sig)

theorem buildLookup_apply (l : List (Nat × Element)) (sig : PyKey × Ty) :
    buildLookup l sig = l.filter (sigP sig) := by
  suffices h : ∀ (m : (PyKey × Ty) → List (Nat × Element)),
      (l.foldl (fun m p => fun s => if s = elemSig p.2 then m s ++ [p] else m s) m) sig
        = m sig ++ l.filter (sigP sig) by
    simpa [buildLookup] using h (fun _ => [])
  induction l with
  | nil => intro m; simp
  | cons p ps ih =>
    intro m
    rw [List.foldl_cons, ih]
    by_cases h : elemSig p.2 = sig
    · rw [List.filter_cons_of_pos (by simp [sigP, h])]
      show (if sig = elemSig p.2 then m sig ++ [p] else m sig) ++ _ = _
      rw [if_pos h.symm, List.append_assoc, List.singleton_append]
    · rw [List.filter_cons_of_neg (by simp [sigP, h])]
      show (if sig = elemSig p.2 then m sig ++ [p] else m sig) ++ _ = _
      rw [if_neg (fun hc => h hc.symm)]

theorem pairwiseFst_injOn {l : List (Nat × Element)}
    (h : l.Pairwise (fun p q => p.1 ≠ q.1)) :
    ∀ p ∈ l, ∀ q ∈ l, p.1 = q.1 → p = q := by
  induction l with
  | nil => intro p hp; cases hp
  | cons x xs ih =>
    intro p hp q hq heq
    rcases List.pairwise_cons.mp h with ⟨hx, hxs⟩
    rcases List.mem_cons.mp hp with rfl | hp'
    · rcases List.mem_cons.mp hq with rfl | hq'
      · rfl
      · exact absurd heq (hx q hq')
    · rcases List.mem_cons.mp hq with rfl | hq'
      · exact absurd heq.symm (hx p hp')
      · exact ih hxs p hp' q hq' heq

theorem extractFirstMatch_none_iff (sig : PyKey × Ty) (l : List (Nat × Element)) :
    extractFirstMatch sig l = none ↔ l.filter (sigP sig) = [] := by
  induction l with
  | nil => simp [extractFirstMatch]
  | cons p ps ih =>
    by_cases h : elemSig p.2 = sig
    · rw [List.filter_cons_of_pos (by simp [sigP, h])]
      simp [extractFirstMatch, h]
    · rw [List.filter_cons_of_neg (by simp [sigP, h])]
      rw [← ih]
      simp only [extractFirstMatch, h, if_false]
      cases hrec : extractFirstMatch sig ps with
      | none => simp
      | some v => cases v with
        | mk mv rv => simp

theorem extractFirstMatch_of_filter {sig : PyKey × Ty} {l : List (Nat × Element)}
    {x : Nat × Element} {rest : List (Nat × Element)}
    (hpw : l.Pairwise (fun p q => p.1 ≠ q.1))
    (hf : l.filter (sigP sig) = x :: rest) :
    extractFirstMatch sig l = some (x, l.filter (fun p => !decide (p.1 = x.1))) := by
  induction l with
  | nil => simp at hf
  | cons p ps ih =>
    rcases List.pairwise_cons.mp hpw with ⟨hp, hps⟩
    by_cases h : elemSig p.2 = sig
    · rw [List.filter_cons_of_pos (by simp [sigP, h])] at hf
      injection hf with hx hrest
      subst hx
      have hkeep : ps.filter (fun q => !decide (q.1 = p.1)) = ps :=
        List.filter_eq_self.mpr (fun q hq => by simpa using (hp q hq).symm)
      simp [extractFirstMatch, h, List.filter_cons, hkeep]
    · rw [List.filter_cons_of_neg (by simp [sigP, h])] at hf
      have hx_mem : x ∈ ps := by
        apply List.mem_of_mem_filter (p := sigP sig)
        rw [hf]; exact List.mem_cons_self x rest
      have hne : ¬ p.1 = x.1 := hp x hx_mem
      have hrec := ih hps hf
      simp [extractFirstMatch, h, hrec, List.filter_cons, hne]

theorem listContains_append (a b : List Nat) (n : Nat) :
    (a ++ b).contains n = (a.contains n || b.contains n) := by
  simp [List.contains]

theorem filter_remove_sig_self {A : List (Nat × Element)} {s0 : PyKey × Ty}
    {x : Nat × Element} {rest : List (Nat × Element)}
    (hApw : A.Pairwise (fun p q => p.1 ≠ q.1))
    (hbucket : A.filter (sigP s0) = x :: rest) :
    (A.filter (fun p => !decide (p.1 = x.1))).filter (sigP s0) = rest := by
  rw [List.filter_comm, hbucket]
  rw [List.filter_cons_of_neg (by simp)]
  apply List.filter_eq_self.mpr
  intro q hq
  have hpairs := hApw.filter (sigP s0)
  rw [hbucket] at hpairs
  rcases List.pairwise_cons.mp hpairs with ⟨hx, _⟩
  simpa using (hx q hq).symm

theorem filter_remove_sig_other {A : List (Nat × Element)} {s0 s : PyKey × Ty}
    {x : Nat × Element} {rest : List (Nat × Element)}
    (hApw : A.Pairwise (fun p q => p.1 ≠ q.1))
    (hbucket : A.filter (sigP s0) = x :: rest)
    (hsig : s ≠ s0) :
    (A.filter (fun p => !decide (p.1 = x.1))).filter (sigP s) = A.filter (sigP s) := by
  have hx_filt : x ∈ A.filter (sigP s0) := by
    rw [hbucket]; exact List.mem_cons_self x rest
  have hx_memA : x ∈ A := List.mem_of_mem_filter hx_filt
  have hx_sig : elemSig x.2 = s0 := by simpa [sigP] using List.of_mem_filter hx_filt
  rw [List.filter_comm]
  apply List.filter_eq_self.mpr
  intro q hq
  have hq_memA : q ∈ A := List.mem_of_mem_filter hq
  have hq_sig : elemSig q.2 = s := by simpa [sigP] using List.of_mem_filter hq
  have hne : ¬ q.1 = x.1 := by
    intro hc
    have hqx : q = x := pairwiseFst_injOn hApw q hq_memA x hx_memA hc
    apply hsig
    rw [← hq_sig, hqx, hx_sig]
  simpa using hne

theorem filter_used_append {enumAll : List (Nat × Element)} {used : List Nat} {idx : Nat} :
    enumAll.filter (fun p => !(used ++ [idx]).contains p.1)
      = (enumAll.filter (fun p => !used.contains p.1)).filter
          (fun p => !decide (p.1 = idx)) := by
  rw [List.filter_filter]
  apply List.filter_congr
  intro p _
  rw [listContains_append]
  simp [List.contains, Bool.not_or, Bool.and_comm]

/-- The bucket-dict before pass of `_match_children` computes exactly the
greedy first-available matching, and its `used_after` bookkeeping leaves
exactly the never-consumed after-children. -/
theorem matchLoop_eq_greedy (bs : List Element) (enumAll : List (Nat × Element))
    (hpw : enumAll.Pairwise (fun p q => p.1 ≠ q.1)) :
    ∀ (used : List Nat) (A : List (Nat × Element)),
      A = enumAll.filter (fun p => !used.contains p.1) →
      (matchLoop bs (fun sig => A.filter (sigP sig)) used).1
          = (greedyFirstAvailable bs A).1
      ∧ enumAll.filter (fun p =>
            !((matchLoop bs (fun sig => A.filter (sigP sig)) used).2).contains p.1)
          = (greedyFirstAvailable bs A).2 := by
  induction bs with
  | nil =>
    intro used A hAeq
    exact ⟨rfl, hAeq.symm⟩
  | cons b bs ih =>
    intro used A hAeq
    have hApw : A.Pairwise (fun p q => p.1 ≠ q.1) := by
      rw [hAeq]; exact hpw.filter _
    cases hbucket : A.filter (sigP (elemSig b)) with
    | nil =>
      have hex : extractFirstMatch (elemSig b) A = none :=
        (extractFirstMatch_none_iff _ _).mpr hbucket
      have hrec := ih used A hAeq
      constructor
      · simp only [matchLoop, greedyFirstAvailable, hex, hbucket]
        rw [show (matchLoop bs (fun sig => A.filter (sigP sig)) used).1
            = (greedyFirstAvailable bs A).1 from hrec.1]
      · simp only [matchLoop, greedyFirstAvailable, hex, hbucket]
        exact hrec.2
    | cons x rest =>
      obtain ⟨idx, m⟩ := x
      have hex : extractFirstMatch (elemSig b) A
          = some ((idx, m), A.filter (fun p => !decide (p.1 = idx))) := by
        simpa using extractFirstMatch_of_filter hApw hbucket
      have hF1 : (A.filter (fun p => !decide (p.1 = idx))).filter (sigP (elemSig b))
          = rest := by
        simpa using filter_remove_sig_self hApw hbucket
      have hF2 : ∀ s, s ≠ elemSig b →
          (A.filter (fun p => !decide (p.1 = idx))).filter (sigP s)
            = A.filter (sigP s) := by
        intro s hs
        simpa using filter_remove_sig_other hApw hbucket hs
      have hused' : enumAll.filter (fun p => !(used ++ [idx]).contains p.1)
          = A.filter (fun p => !decide (p.1 = idx)) := by
        rw [hAeq]; exact filter_used_append
      have hlookup : (fun sig => if sig = elemSig b then rest else A.filter (sigP sig))
          = (fun sig => (A.filter (fun p => !decide (p.1 = idx))).filter (sigP sig)) := by
        funext s
        by_cases hs : s = elemSig b
        · subst hs; rw [if_pos rfl, hF1]
        · rw [if_neg hs, hF2 s hs]
      have hrec := ih (used ++ [idx]) (A.filter (fun p => !decide (p.1 = idx))) hused'.symm
      constructor
      · simp only [matchLoop, greedyFirstAvailable, hex, hbucket]
        rw [hlookup, hrec.1]
      · simp only [matchLoop, greedyFirstAvailable, hex, hbucket]
        rw [hlookup]
        exact hrec.2

theorem enumFrom_pairwiseFst (l : List Element) (n : Nat) :
    (l.enumFrom n).Pairwise (fun p q : Nat × Element => p.1 ≠ q.1) := by
  induction l generalizing n with
  | nil => exact List.Pairwise.nil
  | cons x xs ih =>
    refine List.pairwise_cons.mpr ⟨?_, ih (n + 1)⟩
    intro q hq
    have := List.le_fst_of_mem_enumFrom hq
    omega

/-- `_match_children` equals the matching policy as the claim words it. -/
theorem match_children_eq_greedySpec (bs as : List Element) :
    _match_children bs as = greedyMatchSpec bs as := by
  have hpw : as.enum.Pairwise (fun p q : Nat × Element => p.1 ≠ q.1) :=
    enumFrom_pairwiseFst as 0
  have htriv : as.enum = as.enum.filter (fun p => !([] : List Nat).contains p.1) :=
    (List.filter_eq_self.mpr (fun q _ => by simp [List.contains])).symm
  have h := matchLoop_eq_greedy bs as.enum hpw [] as.enum htriv
  have hbl : buildLookup as.enum = fun sig => as.enum.filter (sigP sig) :=
    funext fun sig => buildLookup_apply as.enum sig
  simp only [_match_children, greedyMatchSpec, hbl]
  rw [h.1, h.2]

/-! ### Membership and size lemmas (for the aligner's termination) -/

theorem extractFirstMatch_mem {sig : PyKey × Ty} {l l' : List (Nat × Element)}
    {m : Nat × Element} (h : extractFirstMatch sig l = some (m, l')) :
    m ∈ l ∧ ∀ x ∈ l', x ∈ l := by
  induction l generalizing l' with
  | nil => simp [extractFirstMatch] at h
  | cons p ps ih =>
    by_cases hc : elemSig p.2 = sig
    · rw [extractFirstMatch, if_pos hc] at h
      injection h with h'
      injection h' with hm hl'
      subst hm; subst hl'
      exact ⟨List.mem_cons_self p ps, fun x hx => List.mem_cons_of_mem p hx⟩
    · rw [extractFirstMatch, if_neg hc] at h
      cases hrec : extractFirstMatch sig ps with
      | none => rw [hrec] at h; cases h
      | some v =>
        obtain ⟨m0, rest0⟩ := v
        rw [hrec] at h
        injection h with h'
        injection h' with hm hl'
        subst hm; subst hl'
        have := ih hrec
        refine ⟨List.mem_cons_of_mem p this.1, fun x hx => ?_⟩
        rcases List.mem_cons.mp hx with rfl | hx'
        · exact List.mem_cons_self x ps
        · exact List.mem_cons_of_mem p (this.2 x hx')

theorem greedy_pairs_mem {bs : List Element} {avail : List (Nat × Element)}
    {pr : Option Element × Option Element}
    (h : pr ∈ (greedyFirstAvailable bs avail).1) :
    (pr.1 = none ∨ ∃ b ∈ bs, pr.1 = some b)
      ∧ (pr.2 = none ∨ ∃ p ∈ avail, pr.2 = some p.2) := by
  induction bs generalizing avail with
  | nil => simp [greedyFirstAvailable] at h
  | cons b bs ih =>
    cases hex : extractFirstMatch (elemSig b) avail with
    | none =>
      simp only [greedyFirstAvailable, hex] at h
      rcases List.mem_cons.mp h with rfl | h'
      · exact ⟨Or.inr ⟨b, List.mem_cons_self b bs, rfl⟩, Or.inl rfl⟩
      · have := ih h'
        refine ⟨?_, this.2⟩
        rcases this.1 with hn | ⟨b', hb', he⟩
        · exact Or.inl hn
        · exact Or.inr ⟨b', List.mem_cons_of_mem b hb', he⟩
    | some v =>
      obtain ⟨m, avail'⟩ := v
      simp only [greedyFirstAvailable, hex] at h
      rcases List.mem_cons.mp h with rfl | h'
      · exact ⟨Or.inr ⟨b, List.mem_cons_self b bs, rfl⟩,
          Or.inr ⟨m, (extractFirstMatch_mem hex).1, rfl⟩⟩
      · have := ih h'
        refine ⟨?_, ?_⟩
        · rcases this.1 with hn | ⟨b', hb', he⟩
          · exact Or.inl hn
          · exact Or.inr ⟨b', List.mem_cons_of_mem b hb', he⟩
        · rcases this.2 with hn | ⟨p, hp, he⟩
          · exact Or.inl hn
          · exact Or.inr ⟨p, (extractFirstMatch_mem hex).2 p hp, he⟩

theorem greedy_rem_subset {bs : List Element} {avail : List (Nat × Element)} :
    ∀ x ∈ (greedyFirstAvailable bs avail).2, x ∈ avail := by
  induction bs generalizing avail with
  | nil => intro x hx; exact hx
  | cons b bs ih =>
    intro x hx
    cases hex : extractFirstMatch (elemSig b) avail with
    | none =>
      simp only [greedyFirstAvailable, hex] at hx
      exact ih x hx
    | some v =>
      obtain ⟨m, avail'⟩ := v
      simp only [greedyFirstAvailable, hex] at hx
      exact (extractFirstMatch_mem hex).2 x (ih x hx)

/-- Every pair `_match_children` produces draws its sides from the
respective children lists. -/
theorem mem_match_children {bs as : List Element} {pr : Option Element × Option Element}
    (h : pr ∈ _match_children bs as) :
    (pr.1 = none ∨ ∃ b ∈ bs, pr.1 = some b)
      ∧ (pr.2 = none ∨ ∃ a ∈ as, pr.2 = some a) := by
  rw [match_children_eq_greedySpec] at h
  simp only [greedyMatchSpec] at h
  rcases List.mem_append.mp h with h1 | h2
  · have := greedy_pairs_mem h1
    refine ⟨this.1, ?_⟩
    rcases this.2 with hn | ⟨p, hp, he⟩
    · exact Or.inl hn
    · exact Or.inr ⟨p.2, List.snd_mem_of_mem_enum hp, he⟩
  · rcases List.mem_map.mp h2 with ⟨p, hp, he⟩
    have hpe : p ∈ as.enum := greedy_rem_subset p hp
    refine ⟨Or.inl ?_, Or.inr ⟨p.2, List.snd_mem_of_mem_enum hpe, ?_⟩⟩
    · rw [← he]
    · rw [← he]

theorem szListElem_mem {e : Element} {l : List Element} (h : e ∈ l) :
    e.sz ≤ szListElem l := by
  induction l with
  | nil => cases h
  | cons x xs ih =>
    rcases List.mem_cons.mp h with rfl | h'
    · rw [szListElem]; omega
    · have := ih h'
      rw [szListElem]; omega

theorem elementSz_pos (e : Element) : 0 < e.sz := by
  cases e <;> simp [Element.sz]

theorem spSz_pos (p : SP) : 0 < p.sz := by
  cases p; rw [SP.sz]; omega

/-- A node's size. -/
theorem nodeSz_pos (n : Node) : 0 < n.sz := by
  cases n with
  | elem e => exact elementSz_pos e
  | sp p => exact spSz_pos p

theorem iterChildren_sz {n : Node} {l : List Element} (h : _iter_children n = .ok l)
    {e : Element} (he : e ∈ l) : e.sz < n.sz := by
  cases n with
  | sp p =>
    cases p with
    | mk pid cs =>
      have hl : cs = l := by
        simpa [_iter_children, SP.children] using h
      subst hl
      have := szListElem_mem he
      show e.sz < SP.sz (SP.mk pid cs)
      rw [SP.sz]; omega
  | elem e' =>
    cases e' with
    | listInterp k i id ex cv fs rh items sep => simp [_iter_children] at h
    | static k i id v =>
      have : l = [] := by simpa [_iter_children] using h.symm
      subst this; cases he
    | textInterp k i id ex cv fs rh v =>
      have : l = [] := by simpa [_iter_children] using h.symm
      subst this; cases he
    | nestedInterp k i id ex cv fs rh v =>
      have : l = [] := by simpa [_iter_children] using h.symm
      subst this; cases he
    | imageInterp k i id ex cv fs rh v =>
      have : l = [] := by simpa [_iter_children] using h.symm
      subst this; cases he

/-! ## Node deltas and the aligner (`_align_nodes`, `diff.py` lines 342–404) -/

/-- The five node-delta statuses. -/
inductive DiffStatus where
  | equal
  | modified
  | inserted
  | deleted
  | moved
deriving DecidableEq, Repr

/-- `NodeDelta`: diff result for a single node (recursive through
`children`, hence a one-constructor inductive with named projections). -/
inductive NodeDelta where
  | mk (status : DiffStatus) (element_type : String) (key : PyKey)
      (before_id : Option String) (after_id : Option String)
      (before_index : Option Nat) (after_index : Option Nat)
      (attr_changes : List (String × (Option String × Option String)))
      (text_edits : List TextEdit) (children : List NodeDelta)

/-- `delta.status`. -/
def NodeDelta.status : NodeDelta → DiffStatus
  | .mk s _ _ _ _ _ _ _ _ _ => s

/-- `delta.element_type`. -/
def NodeDelta.element_type : NodeDelta → String
  | .mk _ t _ _ _ _ _ _ _ _ => t

/-- `delta.key`. -/
def NodeDelta.key : NodeDelta → PyKey
  | .mk _ _ k _ _ _ _ _ _ _ => k

/-- `delta.before_id`. -/
def NodeDelta.before_id : NodeDelta → Option String
  | .mk _ _ _ b _ _ _ _ _ _ => b

/-- `delta.after_id`. -/
def NodeDelta.after_id : NodeDelta → Option String
  | .mk _ _ _ _ a _ _ _ _ _ => a

/-- `delta.before_index`. -/
def NodeDelta.before_index : NodeDelta → Option Nat
  | .mk _ _ _ _ _ b _ _ _ _ => b

/-- `delta.after_index`. -/
def NodeDelta.after_index : NodeDelta → Option Nat
  | .mk _ _ _ _ _ _ a _ _ _ => a

/-- `delta.attr_changes`. -/
def NodeDelta.attr_changes : NodeDelta → List (String × (Option String × Option String))
  | .mk _ _ _ _ _ _ _ ac _ _ => ac

/-- `delta.text_edits`. -/
def NodeDelta.text_edits : NodeDelta → List TextEdit
  | .mk _ _ _ _ _ _ _ _ te _ => te

/-- `delta.children`. -/
def NodeDelta.children : NodeDelta → List NodeDelta
  | .mk _ _ _ _ _ _ _ _ _ cs => cs

/-- Error-propagating traversal of a Python list comprehension, carrying the
membership proof (used for the aligner's termination). -/
def traverseMem {β γ : Type} : (l : List β) → ((x : β) → x ∈ l → Except PyErr γ) →
    Except PyErr (List γ)
  | [], _ => .ok []
  | x :: xs, f =>
    match f x (List.mem_cons_self x xs) with
    | .error e => .error e
    | .ok y =>
      match traverseMem xs (fun z hz => f z (List.mem_cons_of_mem x hz)) with
      | .error e => .error e
      | .ok ys => .ok (y :: ys)

/-- Size of an optional node. -/
def optNodeSz : Option Node → Nat
  | none => 0
  | some n => n.sz

/-- `_align_nodes` (`diff.py` lines 342–404).  Both sides absent raises
`ValueError`; one side absent yields a childless inserted/deleted delta
(evaluating `after.key`/`after.index`, which raises `AttributeError` when
the node is a `StructuredPrompt`); a variant mismatch yields a type-change
`modified` delta; otherwise attributes and text are compared, children are
matched and recursively aligned, and `before.index != after.index` (an
`AttributeError` on prompts) drives the `moved` flag. -/
def _align_nodes : Option Node → Option Node → Except PyErr NodeDelta
  | none, none => .error (.valueError "Cannot diff two empty nodes")
  | none, some a =>
    match a.keyAttr with
    | .error e => .error e
    | .ok k =>
      match a.indexAttr with
      | .error e => .error e
      | .ok ai =>
        .ok (NodeDelta.mk .inserted a.ty.name k none (some a.idAttr) none (some ai) [] [] [])
  | some b, none =>
    match b.keyAttr with
    | .error e => .error e
    | .ok k =>
      match b.indexAttr with
      | .error e => .error e
      | .ok bi =>
        .ok (NodeDelta.mk .deleted b.ty.name k (some b.idAttr) none (some bi) none [] [] [])
  | some b, some a =>
    if b.ty ≠ a.ty then
      match a.keyAttr with
      | .error e => .error e
      | .ok k =>
        match b.indexAttr with
        | .error e => .error e
        | .ok bi =>
          match a.indexAttr with
          | .error e => .error e
          | .ok ai =>
            .ok (NodeDelta.mk .modified (b.ty.name ++ "→" ++ a.ty.name) k
              (some b.idAttr) (some a.idAttr) (some bi) (some ai) [] [] [])
    else
      let ac := _compare_attributes b a
      let te := _diff_text b a
      match _hb : _iter_children b with
      | .error e => .error e
      | .ok bcs =>
        match _ha : _iter_children a with
        | .error e => .error e
        | .ok acs =>
          match traverseMem (_match_children bcs acs)
              (fun pr _hpr => _align_nodes (pr.1.map Node.elem) (pr.2.map Node.elem)) with
          | .error e => .error e
          | .ok cds =>
            match b.indexAttr with
            | .error e => .error e
            | .ok bi =>
              match a.indexAttr with
              | .error e => .error e
              | .ok ai =>
                match a.keyAttr with
                | .error e => .error e
                | .ok k =>
                  let moved := bi ≠ ai
                  let status0 : DiffStatus := if moved then .moved else .equal
                  let status1 : DiffStatus :=
                    if ac ≠ [] ∨ te ≠ [] then .modified else status0
                  let status2 : DiffStatus :=
                    if cds.any (fun c => decide (c.status ≠ DiffStatus.equal)) then
                      (if status1 = .equal then .modified else status1)
                    else status1
                  .ok (NodeDelta.mk status2 a.ty.name k (some b.idAttr) (some a.idAttr)
                    (some bi) (some ai) ac te cds)
termination_by b a => optNodeSz b + optNodeSz a
decreasing_by
  have hmem := mem_match_children _hpr
  have hbpos : 0 < Node.sz b := nodeSz_pos b
  have hapos : 0 < Node.sz a := nodeSz_pos a
  have h1 : optNodeSz (pr.1.map Node.elem) < Node.sz b ∨ optNodeSz (pr.1.map Node.elem) = 0 := by
    rcases hmem.1 with hn | ⟨e, he, hpe⟩
    · rw [hn]; exact Or.inr rfl
    · rw [hpe]
      exact Or.inl (iterChildren_sz _hb he)
  have h2 : optNodeSz (pr.2.map Node.elem) < Node.sz a ∨ optNodeSz (pr.2.map Node.elem) = 0 := by
    rcases hmem.2 with hn | ⟨e, he, hpe⟩
    · rw [hn]; exact Or.inr rfl
    · rw [hpe]
      exact Or.inl (iterChildren_sz _ha he)
  have hgb : optNodeSz (some b) = Node.sz b := rfl
  have hga : optNodeSz (some a) = Node.sz a := rfl
  omega

/-! ## Stats roll-up (`DiffStats`, `_collect_stats`, `diff.py` lines 68–77, 324–339) -/

/-- `DiffStats`: aggregate statistics for a structured diff. -/
structure DiffStats where
  nodes_added : Nat := 0
  nodes_removed : Nat := 0
  nodes_modified : Nat := 0
  nodes_moved : Nat := 0
  text_added : Nat := 0
  text_removed : Nat := 0
deriving DecidableEq, Repr

mutual
/-- `_collect_stats`: count node statuses and accumulate text-edit character
counts, recursing into children. -/
def _collect_stats : NodeDelta → DiffStats → DiffStats
  | .mk st _ _ _ _ _ _ _ te cs, stats =>
    let s1 :=
      if st = .inserted then { stats with nodes_added := stats.nodes_added + 1 }
      else if st = .deleted then { stats with nodes_removed := stats.nodes_removed + 1 }
      else if st = .modified then { stats with nodes_modified := stats.nodes_modified + 1 }
      else if st = .moved then { stats with nodes_moved := stats.nodes_moved + 1 }
      else stats
    let s2 := te.foldl (fun s e =>
      { s with text_added := s.text_added + e.added_chars,
               text_removed := s.text_removed + e.removed_chars }) s1
    collectStatsList cs s2

/-- The `for child in delta.children` loop of `_collect_stats`. -/
def collectStatsList : List NodeDelta → DiffStats → DiffStats
  | [], s => s
  | d :: ds, s => collectStatsList ds (_collect_stats d s)
end

/-! ## Element maps and character totals
(`_build_element_map`, `_element_text_length`, `_structured_total_chars`,
`diff.py` lines 646–678) -/

/-- Error-propagating fold over a Python `for` loop, carrying the membership
proof (used for recursion measures). -/
def foldMem {β γ : Type} : (l : List β) → γ → ((x : β) → x ∈ l → γ → Except PyErr γ) →
    Except PyErr γ
  | [], acc, _ => .ok acc
  | x :: xs, acc, f =>
    match f x (List.mem_cons_self x xs) acc with
    | .error e => .error e
    | .ok acc' => foldMem xs acc' (fun z hz => f z (List.mem_cons_of_mem x hz))

/-- `_element_text_length`: text length of a `Static` or `TextInterpolation`
(0 for `None` and for every other node). -/
def _element_text_length : Option Node → Nat
  | some (.elem (.static _ _ _ v)) => v.length
  | some (.elem (.textInterp _ _ _ _ _ _ _ v)) => v.length
  | _ => 0

/-- `dict.get` with a possibly-`None` key (`before_map.get(delta.after_id)`). -/
def optLookup (m : String → Option Node) : Option String → Option Node
  | none => none
  | some s => m s

/-- The `visit` closure of `_build_element_map`: record the node under its
id, then recurse into its children (`AttributeError` on list children). -/
def buildMapVisit : Node → (String → Option Node) → Except PyErr (String → Option Node)
  | n, m =>
    let m' := fun s => if s = n.idAttr then some n else m s
    match _hcs : _iter_children n with
    | .error e => .error e
    | .ok cs => foldMem cs m' (fun c _hc acc => buildMapVisit (.elem c) acc)
termination_by n _ => n.sz
decreasing_by exact iterChildren_sz _hcs _hc

/-- `_build_element_map` (`diff.py` lines 646–655). -/
def _build_element_map (element : Node) : Except PyErr (String → Option Node) :=
  buildMapVisit element (fun _ => none)

/-- The `visit` closure of `_structured_total_chars`. -/
def totalCharsVisit : Node → Nat → Except PyErr Nat
  | n, acc =>
    let acc' := acc + _element_text_length (some n)
    match _hcs : _iter_children n with
    | .error e => .error e
    | .ok cs => foldMem cs acc' (fun c _hc a => totalCharsVisit (.elem c) a)
termination_by n _ => n.sz
decreasing_by exact iterChildren_sz _hcs _hc

/-- `_structured_total_chars` (`diff.py` lines 668–678). -/
def _structured_total_chars (element : Node) : Except PyErr Nat :=
  totalCharsVisit element 0

/-! ## Structural signature map
(`_build_element_signature_map`, `diff.py` lines 546–565) -/

/-- Python `str(key)`. -/
def pyKeyStr : PyKey → String
  | .intKey n => toString n
  | .strKey s => s

/-- The `visit` closure of `_build_element_signature_map`.  The first line,
`key_repr = "<root>" if element.key is None else str(element.key)`, reads
`element.key`: on the root `StructuredPrompt` that attribute does not exist,
so the visit raises `AttributeError` before anything else (no modelled node
has a `None` key, so the `"<root>"` branch is unreachable). -/
def sigMapVisit : Node → List String → (String → Option (List String)) →
    Except PyErr (String → Option (List String))
  | n, path, sigs =>
    match n.keyAttr with
    | .error e => .error e
    | .ok k =>
      match n.indexAttr with
      | .error e => .error e
      | .ok idx =>
        let segment := n.ty.name ++ ":" ++ pyKeyStr k ++ ":" ++ toString idx
        let current := path ++ [segment]
        let sigs' := fun s => if s = n.idAttr then some current else sigs s
        match _hcs : _iter_children n with
        | .error e => .error e
        | .ok cs => foldMem cs sigs' (fun c _hc acc => sigMapVisit (.elem c) current acc)
termination_by n _ _ => n.sz
decreasing_by exact iterChildren_sz _hcs _hc

/-- `_build_element_signature_map`: structural paths
`"{type}:{key}:{index}"`, visited from the root prompt. -/
def _build_element_signature_map (prompt : Node) :
    Except PyErr (String → Option (List String)) :=
  sigMapVisit prompt [] (fun _ => none)

/-! ## Order score (`_structured_order_score`, `diff.py` lines 681–743)

`_element_render_text` (`diff.py` lines 805–816) renders a sub-prompt via
the rendering engine of the missing `ir.py`; it wraps the render in
`try/except Exception` and returns `""` on failure, so it is a total
`SP → String` function.  The order-score embedding is parameterised by that
function (`renderText`). -/

/-- The second component of an `_order_signature` tuple: a text value or a
key (Python compares these tuples with structural equality; within a fixed
type name the component kind is fixed, so the tagged sum is faithful). -/
inductive OrderVal where
  | ostr (s : String)
  | okey (k : PyKey)
deriving DecidableEq, Repr

/-- `_order_signature` on an arbitrary node.  An empty rendered text on a
`StructuredPrompt` falls through to `element.key`, which raises
`AttributeError`. -/
def _order_signature (renderText : SP → String) : Node → Except PyErr (String × OrderVal)
  | .elem (.static _ _ _ v) => .ok ("Static", .ostr v)
  | .elem (.textInterp _ _ _ _ _ _ _ v) => .ok ("TextInterpolation", .ostr v)
  | .sp p =>
    let text := renderText p
    if text ≠ "" then .ok ("StructuredPrompt", .ostr text)
    else .error (.attrError "key")
  | .elem e => .ok (e.ty.name, .okey e.key)

/-- `_order_signature` restricted to elements (the only nodes the order-score
visit ever applies it to: `_iter_children` yields elements), where it is
total. -/
def orderSigOfElem : Element → String × OrderVal
  | .static _ _ _ v => ("Static", .ostr v)
  | .textInterp _ _ _ _ _ _ _ v => ("TextInterpolation", .ostr v)
  | e => (e.ty.name, .okey e.key)

theorem order_signature_elem (renderText : SP → String) (e : Element) :
    _order_signature renderText (.elem e) = .ok (orderSigOfElem e) := by
  cases e <;> rfl

/-- `_count_inversions` (`diff.py` lines 737–743). -/
def _count_inversions : List Nat → Nat
  | [] => 0
  | v :: rest => rest.countP (fun o => decide (o < v)) + _count_inversions rest

/-- The `after_lookup` dict of the order-score visit: per-signature deques of
enumerated after-children, appended in order. -/
def orderBuckets (l : List (Nat × Element)) : (String × OrderVal) → List (Nat × Element) :=
  l.foldl (fun m p => fun s => if s = orderSigOfElem p.2 then m s ++ [p] else m s)
    (fun _ => [])

/-- The matched-pairs loop of the order-score visit: each enumerated
before-child pops the head of its signature deque when non-empty. -/
def orderMatchLoop :
    List (Nat × Element) → ((String × OrderVal) → List (Nat × Element)) →
      List (Nat × Nat × Element × Element)
  | [], _ => []
  | (bidx, bc) :: rest, lookup =>
    match lookup (orderSigOfElem bc) with
    | [] => orderMatchLoop rest lookup
    | (aidx, ac) :: btail =>
      let lookup' := fun s => if s = orderSigOfElem bc then btail else lookup s
      (bidx, aidx, bc, ac) :: orderMatchLoop rest lookup'

theorem orderBuckets_sub (l : List (Nat × Element)) :
    ∀ s p, p ∈ orderBuckets l s → p ∈ l := by
  suffices h : ∀ (l' : List (Nat × Element)) (m : (String × OrderVal) → List (Nat × Element)),
      (∀ s p, p ∈ m s → p ∈ l) → (∀ x ∈ l', x ∈ l) →
      ∀ s p, p ∈ (l'.foldl (fun m p => fun s => if s = orderSigOfElem p.2 then m s ++ [p]
        else m s) m) s → p ∈ l by
    exact h l (fun _ => []) (by intro s p hp; cases hp) (fun x hx => hx)
  intro l'
  induction l' with
  | nil => intro m hm _ s p hp; exact hm s p hp
  | cons q qs ih =>
    intro m hm hsub s p hp
    refine ih _ ?_ (fun x hx => hsub x (List.mem_cons_of_mem q hx)) s p hp
    intro s' p' hp'
    have hp'' : p' ∈ (if s' = orderSigOfElem q.2 then m s' ++ [q] else m s') := hp'
    by_cases hs : s' = orderSigOfElem q.2
    · rw [if_pos hs] at hp''
      rcases List.mem_append.mp hp'' with h1 | h2
      · exact hm _ p' h1
      · rcases List.mem_singleton.mp h2 with rfl
        exact hsub _ (List.mem_cons_self _ _)
    · rw [if_neg hs] at hp''
      exact hm s' p' hp''

theorem orderMatchLoop_mem {aen : List (Nat × Element)} :
    ∀ (ben : List (Nat × Element)) (lookup : (String × OrderVal) → List (Nat × Element)),
      (∀ s p, p ∈ lookup s → p ∈ aen) →
      ∀ q ∈ orderMatchLoop ben lookup,
        (∃ p ∈ ben, q.2.2.1 = p.2) ∧ (∃ p ∈ aen, q.2.2.2 = p.2) := by
  intro ben
  induction ben with
  | nil => intro lookup _ q hq; cases hq
  | cons bp rest ih =>
    obtain ⟨bidx, bc⟩ := bp
    intro lookup hsub q hq
    cases hbucket : lookup (orderSigOfElem bc) with
    | nil =>
      simp only [orderMatchLoop, hbucket] at hq
      have := ih lookup hsub q hq
      exact ⟨⟨this.1.choose, List.mem_cons_of_mem _ this.1.choose_spec.1,
        this.1.choose_spec.2⟩, this.2⟩
    | cons ap btail =>
      obtain ⟨aidx, ac⟩ := ap
      simp only [orderMatchLoop, hbucket] at hq
      rcases List.mem_cons.mp hq with rfl | hq'
      · refine ⟨⟨(bidx, bc), List.mem_cons_self _ _, rfl⟩, ⟨(aidx, ac), ?_, rfl⟩⟩
        exact hsub _ _ (by rw [hbucket]; exact List.mem_cons_self _ _)
      · have hsub' : ∀ s p, p ∈ (fun s => if s = orderSigOfElem bc then btail
            else lookup s) s → p ∈ aen := by
          intro s p hp
          have hp2 : p ∈ (if s = orderSigOfElem bc then btail else lookup s) := hp
          by_cases hs : s = orderSigOfElem bc
          · rw [if_pos hs] at hp2
            exact hsub _ p (by rw [hbucket]; exact List.mem_cons_of_mem _ hp2)
          · rw [if_neg hs] at hp2
            exact hsub s p hp2
        have := ih _ hsub' q hq'
        exact ⟨⟨this.1.choose, List.mem_cons_of_mem _ this.1.choose_spec.1,
          this.1.choose_spec.2⟩, this.2⟩

/-- The recursive `visit` of `_structured_order_score`, accumulating
`(total_pairs, discordant_pairs)`.  `matched` is built in ascending
before-index order, so Python's stable `sorted(..., key=before_idx)` is the
identity on it. -/
def orderVisit (renderText : SP → String) : Node → Node → (Nat × Nat) →
    Except PyErr (Nat × Nat)
  | bn, an, acc =>
    match _hb : _iter_children bn with
    | .error e => .error e
    | .ok bcs =>
      match _ha : _iter_children an with
      | .error e => .error e
      | .ok acs =>
        if bcs.isEmpty || acs.isEmpty then .ok acc
        else
          let matched := orderMatchLoop bcs.enum (orderBuckets acs.enum)
          let acc' :=
            if 2 ≤ matched.length then
              let after_indices := matched.map (fun q => q.2.1)
              let pair_count := matched.length * (matched.length - 1) / 2
              (acc.1 + pair_count, acc.2 + _count_inversions after_indices)
            else acc
          foldMem matched acc'
            (fun q _hq a => orderVisit renderText (.elem q.2.2.1) (.elem q.2.2.2) a)
termination_by bn an _ => bn.sz + an.sz
decreasing_by
  have hmem := orderMatchLoop_mem bcs.enum (orderBuckets acs.enum)
    (fun s p hp => orderBuckets_sub acs.enum s p hp) q _hq
  obtain ⟨⟨pb, hpb, hqb⟩, ⟨pa, hpa, hqa⟩⟩ := hmem
  have h1 : Element.sz q.2.2.1 < Node.sz bn := by
    rw [hqb]
    exact iterChildren_sz _hb (List.snd_mem_of_mem_enum hpb)
  have h2 : Element.sz q.2.2.2 < Node.sz an := by
    rw [hqa]
    exact iterChildren_sz _ha (List.snd_mem_of_mem_enum hpa)
  have hb' : Node.sz (.elem q.2.2.1) = Element.sz q.2.2.1 := rfl
  have ha' : Node.sz (.elem q.2.2.2) = Element.sz q.2.2.2 := rfl
  omega

/-- `_structured_order_score` (`diff.py` lines 681–718): Kendall-tau-style
inversion ratio over greedily matched siblings, 0.0 when no pairs match. -/
def _structured_order_score (renderText : SP → String) (before after : Node) :
    Except PyErr ℚ :=
  match orderVisit renderText before after (0, 0) with
  | .error e => .error e
  | .ok r =>
    if r.1 = 0 then .ok 0
    else .ok ((r.2 : ℚ) / (r.1 : ℚ))

/-! ## Structured metrics (`_compute_structured_metrics`, `diff.py` lines 598–643) -/

/-- `StructuredDiffMetrics` (Python floats are modelled as rationals). -/
structure StructuredDiffMetrics where
  edit_count : ℚ := 0
  span_chars : Nat := 0
  char_ratio : ℚ := 0
  order_score : ℚ := 0
deriving DecidableEq, Repr

mutual
/-- The `visit` closure of `_compute_structured_metrics`, accumulating
`(edit_count, span_chars)` over the delta tree. -/
def metricsVisit (bm am : String → Option Node) : NodeDelta → (ℚ × Nat) → (ℚ × Nat)
  | .mk st ty _ bid aid _ _ ac te cs, acc =>
    let acc1 : ℚ × Nat :=
      if st = .inserted then (acc.1 + 1, acc.2 + _element_text_length (optLookup am aid))
      else if st = .deleted then (acc.1 + 1, acc.2 + _element_text_length (optLookup bm bid))
      else if st = .moved then (acc.1 + 1, acc.2)
      else if st = .modified then
        (if ac ≠ [] ∨ te ≠ [] ∨ ty.contains '→' then
          (acc.1 + (if ac ≠ [] ∧ te = [] ∧ cs.all (fun c => decide (c.status = DiffStatus.equal))
            then (0.5 : ℚ) else 1), acc.2)
        else acc)
      else acc
    let acc2 := te.foldl (fun a e => (a.1, a.2 + max e.before.length e.after.length)) acc1
    metricsVisitList bm am cs acc2

/-- The `for child in delta.children` loop of the metrics visit. -/
def metricsVisitList (bm am : String → Option Node) : List NodeDelta → (ℚ × Nat) → (ℚ × Nat)
  | [], acc => acc
  | d :: ds, acc => metricsVisitList bm am ds (metricsVisit bm am d acc)
end

/-- `_compute_structured_metrics`: element maps, the edit/span visit, the
character-ratio baseline (before total, falling back to `max(after, 1)` when
zero), and the order score. -/
def _compute_structured_metrics (renderText : SP → String) (root : NodeDelta)
    (before after : SP) : Except PyErr StructuredDiffMetrics :=
  match _build_element_map (.sp before) with
  | .error e => .error e
  | .ok bm =>
    match _build_element_map (.sp after) with
    | .error e => .error e
    | .ok am =>
      let ec_span := metricsVisit bm am root ((0 : ℚ), 0)
      match _structured_total_chars (.sp before) with
      | .error e => .error e
      | .ok tb =>
        match (if tb = 0 then (_structured_total_chars (.sp after)).map (fun ta => max ta 1)
          else .ok tb : Except PyErr Nat) with
        | .error e => .error e
        | .ok baseline =>
          let char_ratio : ℚ := (ec_span.2 : ℚ) / (baseline : ℚ)
          match _structured_order_score renderText (.sp before) (.sp after) with
          | .error e => .error e
          | .ok os =>
            .ok { edit_count := ec_span.1, span_chars := ec_span.2,
                  char_ratio := char_ratio, order_score := os }

/-! ## The structured diff entry point (`diff_structured_prompts`, `diff.py`
lines 270–277) -/

/-- `StructuredPromptDiff`. -/
structure StructuredPromptDiff where
  before : SP
  after : SP
  root : NodeDelta
  stats : DiffStats
  metrics : StructuredDiffMetrics

/-- `diff_structured_prompts`: align the two prompts, roll up stats, compute
metrics. -/
def diff_structured_prompts (renderText : SP → String) (before after : SP) :
    Except PyErr StructuredPromptDiff :=
  match _align_nodes (some (.sp before)) (some (.sp after)) with
  | .error e => .error e
  | .ok root =>
    let stats := _collect_stats root {}
    match _compute_structured_metrics renderText root before after with
    | .error e => .error e
    | .ok m => .ok ⟨before, after, root, stats, m⟩

/-! ## Rendered (chunk-level) diff
(`_diff_chunks`, `_chunk_element`, `diff.py` lines 152–163, 280–318, 485–543)

`ir.py` is not part of the sources, so the chunk data shapes are modelled
from the spec. -/

/-- Modelled from the spec: a Chunk is either `TextChunk { text, element_id }`
or `ImageChunk { payload, element_id }` (`ir.py` is missing from the
sources; §3 of the spec gives the shapes, and `ui.py` distinguishes the two
classes by `hasattr(chunk, "text")` / `hasattr(chunk, "image")`, so an
`ImageChunk` has no `text` attribute).  Image payloads are opaque strings. -/
inductive Chunk where
  | textChunk (text : String) (element_id : String)
  | imageChunk (image : String) (element_id : String)
deriving DecidableEq, Repr

/-- `chunk.element_id` (defined on both chunk kinds). -/
def Chunk.element_id : Chunk → String
  | .textChunk _ i => i
  | .imageChunk _ i => i

/-- `type(chunk).__name__`. -/
def Chunk.typeName : Chunk → String
  | .textChunk .. => "TextChunk"
  | .imageChunk .. => "ImageChunk"

/-- `chunk.text`: an attribute of `TextChunk` only; reading it on an
`ImageChunk` raises `AttributeError`. -/
def Chunk.textAttr : Chunk → Except PyErr String
  | .textChunk t _ => .ok t
  | .imageChunk .. => .error (.attrError "text")

/-- `ChunkDelta`: chunk-level diff entry (`op` ranges over the same four
tags as the opcode diff). -/
structure ChunkDelta where
  op : Tag
  before : Option Chunk
  after : Option Chunk
deriving DecidableEq, Repr

/-- `ChunkDelta.text_delta` (`diff.py` lines 160–163): both lengths are
computed (possibly raising on image chunks) before the op filter. -/
def ChunkDelta.text_delta (d : ChunkDelta) : Except PyErr (Nat × Nat) :=
  match (match d.after with
    | none => .ok 0
    | some c => c.textAttr.map String.length : Except PyErr Nat) with
  | .error e => .error e
  | .ok added =>
    match (match d.before with
      | none => .ok 0
      | some c => c.textAttr.map String.length : Except PyErr Nat) with
    | .error e => .error e
    | .ok removed =>
      .ok (if d.op = .insert ∨ d.op = .replace then added else 0,
        if d.op = .delete ∨ d.op = .replace then removed else 0)

/-- `_chunk_signature` (`diff.py` lines 568–577): structural position only,
text deliberately excluded. -/
def _chunk_signature (chunk : Chunk) (signatures : String → Option (List String)) :
    String × Option (List String) :=
  (chunk.typeName, signatures chunk.element_id)

/-- Python slice `l[i:j]`. -/
def listSlice {β : Type} (l : List β) (i j : Nat) : List β :=
  (l.drop i).take (j - i)

/-- `itertools.zip_longest` with the default `None` filler. -/
def zipLongest {β γ : Type} : List β → List γ → List (Option β × Option γ)
  | [], [] => []
  | [], y :: ys => (none, some y) :: zipLongest [] ys
  | x :: xs, [] => (some x, none) :: zipLongest xs []
  | x :: xs, y :: ys => (some x, some y) :: zipLongest xs ys

/-- The `equal`-run loop of `_diff_chunks`: structure matched, so compare
texts pairwise and emit `equal` or `replace`. -/
def processPairs : List (Chunk × Chunk) → Except PyErr (List ChunkDelta)
  | [] => .ok []
  | (bc, ac) :: rest =>
    match bc.textAttr with
    | .error e => .error e
    | .ok bt =>
      match ac.textAttr with
      | .error e => .error e
      | .ok at' =>
        match processPairs rest with
        | .error e => .error e
        | .ok ds =>
          .ok ((if bt = at' then ChunkDelta.mk .equal (some bc) (some ac)
            else ChunkDelta.mk .replace (some bc) (some ac)) :: ds)

/-- The `replace`-run loop of `_diff_chunks` over `zip_longest` pairs:
missing sides fall back to `insert`/`delete`, byte-identical texts are
reclassified to `equal`. -/
def processReplacePairs : List (Option Chunk × Option Chunk) → Except PyErr (List ChunkDelta)
  | [] => .ok []
  | (ob, oa) :: rest =>
    match ob with
    | none =>
      match processReplacePairs rest with
      | .error e => .error e
      | .ok ds => .ok (ChunkDelta.mk .insert none oa :: ds)
    | some bc =>
      match oa with
      | none =>
        match processReplacePairs rest with
        | .error e => .error e
        | .ok ds => .ok (ChunkDelta.mk .delete (some bc) none :: ds)
      | some ac =>
        match bc.textAttr with
        | .error e => .error e
        | .ok bt =>
          match ac.textAttr with
          | .error e => .error e
          | .ok at' =>
            match processReplacePairs rest with
            | .error e => .error e
            | .ok ds =>
              .ok ((if bt = at' then ChunkDelta.mk .equal (some bc) (some ac)
                else ChunkDelta.mk .replace (some bc) (some ac)) :: ds)

/-- Processing of one signature-level opcode in `_diff_chunks`. -/
def processOpcode (before_list after_list : List Chunk) (oc : SeqMatch.Opcode) :
    Except PyErr (List ChunkDelta) :=
  match oc.tag with
  | .equal =>
    processPairs ((listSlice before_list oc.i1 oc.i2).zip (listSlice after_list oc.j1 oc.j2))
  | .replace =>
    processReplacePairs
      (zipLongest (listSlice before_list oc.i1 oc.i2) (listSlice after_list oc.j1 oc.j2))
  | .delete =>
    .ok ((listSlice before_list oc.i1 oc.i2).map (fun c => ChunkDelta.mk .delete (some c) none))
  | .insert =>
    .ok ((listSlice after_list oc.j1 oc.j2).map (fun c => ChunkDelta.mk .insert none (some c)))

/-- The opcode loop of `_diff_chunks`. -/
def processOpcodes (before_list after_list : List Chunk) :
    List SeqMatch.Opcode → Except PyErr (List ChunkDelta)
  | [] => .ok []
  | oc :: rest =>
    match processOpcode before_list after_list oc with
    | .error e => .error e
    | .ok ds =>
      match processOpcodes before_list after_list rest with
      | .error e => .error e
      | .ok ds' => .ok (ds ++ ds')

/-- `_diff_chunks` (`diff.py` lines 485–535): align the two chunk sequences
by structural signature, then post-process each opcode run. -/
def _diff_chunks (before after : List Chunk)
    (before_signatures after_signatures : String → Option (List String)) :
    Except PyErr (List ChunkDelta) :=
  let before_keys := before.map (fun c => _chunk_signature c before_signatures)
  let after_keys := after.map (fun c => _chunk_signature c after_signatures)
  processOpcodes before after (SeqMatch.getOpcodes before_keys after_keys)

/-- `_chunk_element` (`diff.py` lines 538–543): the after chunk's element id
when present, otherwise the before chunk's. -/
def _chunk_element (delta : ChunkDelta) : Option String :=
  match delta.after with
  | some c => some c.element_id
  | none =>
    match delta.before with
    | some c => some c.element_id
    | none => none

/-- `ElementRenderChange`: aggregated chunk operations for one element. -/
structure ElementRenderChange where
  element_id : String
  inserts : Nat := 0
  deletes : Nat := 0
  replaces : Nat := 0
  equals : Nat := 0
  text_added : Nat := 0
  text_removed : Nat := 0
deriving DecidableEq, Repr

/-- One iteration of the per-element aggregation loop of
`diff_rendered_prompts` (`diff.py` lines 289–304).  Python skips falsy ids
(`if not element_id: continue`), i.e. both a missing id and the empty
string. -/
def perElementStep (m : String → Option ElementRenderChange) (delta : ChunkDelta) :
    Except PyErr (String → Option ElementRenderChange) :=
  match _chunk_element delta with
  | none => .ok m
  | some eid =>
    if eid = "" then .ok m
    else
      let s0 := (m eid).getD { element_id := eid }
      let s1 :=
        if delta.op = .equal then { s0 with equals := s0.equals + 1 }
        else if delta.op = .insert then { s0 with inserts := s0.inserts + 1 }
        else if delta.op = .delete then { s0 with deletes := s0.deletes + 1 }
        else if delta.op = .replace then { s0 with replaces := s0.replaces + 1 }
        else s0
      match delta.text_delta with
      | .error e => .error e
      | .ok ar =>
        let s2 := { s1 with
          text_added := s1.text_added + ar.1
          text_removed := s1.text_removed + ar.2 }
        .ok (fun s => if s = eid then some s2 else m s)

/-- The per-element aggregation loop of `diff_rendered_prompts`. -/
def perElementSummaries : List ChunkDelta → (String → Option ElementRenderChange) →
    Except PyErr (String → Option ElementRenderChange)
  | [], m => .ok m
  | d :: ds, m =>
    match perElementStep m d with
    | .error e => .error e
    | .ok m' => perElementSummaries ds m'

/-! ## The parent-link discipline
(`StructuredPrompt._set_parent_element`, `structured_prompt.py` lines
305–357) -/

/-- Modelled from the spec: `PromptReuseError` (its class lives in the
missing `exceptions.py`) carries the reused tree and both the existing and
the newly attempted parent, exactly the arguments of the raise site
`PromptReuseError(self, self.parent_element, parent)`.  Objects are
identified by opaque tokens. -/
structure PromptReuseError where
  prompt : String
  existing : String
  attempted : String
deriving DecidableEq, Repr

/-- `_set_parent_element`: idempotent on the same parent (`is` comparison,
modelled as token equality), raising `PromptReuseError` on a different
parent, and setting the link when unset.  The `parent_element` field is
passed and returned explicitly. -/
def _set_parent_element (promptId : String) (parent_element : Option String)
    (parent : String) : Except PromptReuseError (Option String) :=
  if parent_element = some parent then .ok parent_element
  else
    match parent_element with
    | some existing => .error ⟨promptId, existing, parent⟩
    | none => .ok (some parent)

/-- The parent link as observed after a call: the raise happens before the
assignment, so a failing call leaves the link unchanged. -/
def applySetParent (promptId : String) (st : Option String) (parent : String) :
    Option String :=
  match _set_parent_element promptId st parent with
  | .ok st' => st'
  | .error _ => st

/-! ## Reduction lemmas for the aligner and the visitors -/

theorem iter_children_nonlist {e : Element} (h : e.ty ≠ .listTy) :
    _iter_children (.elem e) = .ok [] := by
  cases e <;> first | rfl | exact absurd rfl h

theorem match_children_nil : _match_children [] [] = [] := rfl

/-- Aligning `None` against an element yields a childless inserted delta. -/
theorem align_none_elem (e : Element) :
    _align_nodes none (some (.elem e))
      = .ok (NodeDelta.mk .inserted e.ty.name e.key none (some e.eid) none (some e.index)
          [] [] []) := by
  simp [_align_nodes, Node.keyAttr, Node.indexAttr, Node.idAttr, Node.ty]

/-- Aligning an element against `None` yields a childless deleted delta. -/
theorem align_elem_none (e : Element) :
    _align_nodes (some (.elem e)) none
      = .ok (NodeDelta.mk .deleted e.ty.name e.key (some e.eid) none (some e.index) none
          [] [] []) := by
  simp [_align_nodes, Node.keyAttr, Node.indexAttr, Node.idAttr, Node.ty]

/-- Aligning two same-variant non-list elements: no recursion below (their
`_iter_children` is `()`), so the status is decided by the attribute diff,
the text diff and the index comparison. -/
theorem align_elem_elem (b a : Element) (hty : b.ty = a.ty) (hnl : b.ty ≠ .listTy) :
    _align_nodes (some (.elem b)) (some (.elem a))
      = .ok (NodeDelta.mk
          (if _compare_attributes (.elem b) (.elem a) ≠ [] ∨ _diff_text (.elem b) (.elem a) ≠ []
            then .modified
            else if b.index ≠ a.index then .moved else .equal)
          a.ty.name a.key (some b.eid) (some a.eid) (some b.index) (some a.index)
          (_compare_attributes (.elem b) (.elem a)) (_diff_text (.elem b) (.elem a)) []) := by
  have hnla : a.ty ≠ .listTy := hty ▸ hnl
  rw [_align_nodes]
  rw [if_neg (by simp [Node.ty, hty])]
  rw [iter_children_nonlist (show (Node.elem b).ty ≠ _ from hnl)]
  rw [iter_children_nonlist (show (Node.elem a).ty ≠ _ from hnla)]
  simp [match_children_nil, traverseMem, Node.indexAttr, Node.keyAttr, Node.idAttr, Node.ty]

/-- Aligning two list interpolations raises: `_iter_children` reads the
missing `item_elements` attribute. -/
theorem align_list_pair {b a : Element} (hb : b.ty = .listTy) (ha : a.ty = .listTy) :
    _align_nodes (some (.elem b)) (some (.elem a))
      = .error (.attrError "item_elements") := by
  cases b <;> simp only [Element.ty] at hb <;> try exact absurd hb (by decide)
  cases a <;> simp only [Element.ty] at ha <;> try exact absurd ha (by decide)
  rw [_align_nodes.eq_def]
  simp [Node.ty, Element.ty, _iter_children]

/-- Non-dependent traversal, equal to `traverseMem` when the body ignores
the membership proof. -/
def traverseList {β γ : Type} : List β → (β → Except PyErr γ) → Except PyErr (List γ)
  | [], _ => .ok []
  | x :: xs, g =>
    match g x with
    | .error e => .error e
    | .ok y =>
      match traverseList xs g with
      | .error e => .error e
      | .ok ys => .ok (y :: ys)

theorem traverseMem_eq_traverseList {β γ : Type} (l : List β) (g : β → Except PyErr γ) :
    traverseMem l (fun x _ => g x) = traverseList l g := by
  induction l with
  | nil => rfl
  | cons x xs ih => simp [traverseMem, traverseList, ih]

/-- Aligning two prompts: after the recursive child pass, the root reads
`before.index`, which `StructuredPrompt` does not define, so the call always
raises (either a child error or `AttributeError: index`). -/
theorem align_sp_sp (b a : SP) :
    _align_nodes (some (.sp b)) (some (.sp a))
      = match traverseList (_match_children b.children a.children)
          (fun pr => _align_nodes (pr.1.map Node.elem) (pr.2.map Node.elem)) with
        | .error e => .error e
        | .ok _ => .error (.attrError "index") := by
  obtain ⟨bid, bcs⟩ := b
  obtain ⟨aid, acs⟩ := a
  rw [_align_nodes]
  rw [if_neg (by simp [Node.ty])]
  simp only [_iter_children, SP.children]
  rw [traverseMem_eq_traverseList]
  cases htr : traverseList (_match_children bcs acs)
      (fun pr => _align_nodes (pr.1.map Node.elem) (pr.2.map Node.elem)) with
  | error e => simp [htr]
  | ok cds => simp [htr, Node.indexAttr]

/-- Greedy matching of a list against its own enumeration pairs every child
with itself. -/
theorem greedy_self (cs : List Element) (k : Nat) :
    greedyFirstAvailable cs (cs.enumFrom k)
      = (cs.map (fun c => (some c, some c)), []) := by
  induction cs generalizing k with
  | nil => rfl
  | cons c rest ih =>
    simp [List.enumFrom, greedyFirstAvailable, extractFirstMatch, ih (k + 1)]

/-- `_match_children` of a list against itself pairs every child with
itself, with no leftovers. -/
theorem matchChildren_self (cs : List Element) :
    _match_children cs cs = cs.map (fun c => (some c, some c)) := by
  rw [match_children_eq_greedySpec]
  simp only [greedyMatchSpec]
  rw [show cs.enum = cs.enumFrom 0 from rfl, greedy_self]
  simp

/-- Recursively aligning the self-pairs of a child list that contains a list
interpolation raises `AttributeError: item_elements` (the earlier non-list
pairs align fine; the first list pair reads the missing attribute). -/
theorem traverseList_selfpairs_err (cs : List Element)
    (hli : ∃ e ∈ cs, e.ty = .listTy) :
    traverseList (cs.map (fun c => ((some c : Option Element), (some c : Option Element))))
      (fun pr => _align_nodes (pr.1.map Node.elem) (pr.2.map Node.elem))
      = .error (.attrError "item_elements") := by
  induction cs with
  | nil => obtain ⟨e, he, _⟩ := hli; cases he
  | cons c rest ih =>
    by_cases hc : c.ty = .listTy
    · simp [traverseList, align_list_pair hc hc]
    · obtain ⟨e, he, hety⟩ := hli
      rcases List.mem_cons.mp he with rfl | he'
      · exact absurd hety hc
      · simp [traverseList, align_elem_elem c c rfl hc, ih ⟨e, he', hety⟩]

/-- Self-alignment of a prompt with a list-interpolation child raises the
`item_elements` attribute error. -/
theorem align_self_sp_listerr (p : SP) (hli : ∃ e ∈ p.children, e.ty = .listTy) :
    _align_nodes (some (.sp p)) (some (.sp p)) = .error (.attrError "item_elements") := by
  rw [align_sp_sp, matchChildren_self, traverseList_selfpairs_err p.children hli]

/-- `foldMem` over a child list whose first list interpolation makes the
body raise `err`, while non-list children succeed. -/
theorem foldMem_first_listerr {γ : Type} (err : PyErr) :
    ∀ (l : List Element) (acc : γ) (f : (x : Element) → x ∈ l → γ → Except PyErr γ),
      (∀ x hx a, Element.ty x ≠ .listTy → ∃ a', f x hx a = .ok a') →
      (∀ x hx a, Element.ty x = .listTy → f x hx a = .error err) →
      (∃ e ∈ l, e.ty = .listTy) →
      foldMem l acc f = .error err := by
  intro l
  induction l with
  | nil => intro acc f _ _ hli; obtain ⟨e, he, _⟩ := hli; cases he
  | cons x xs ih =>
    intro acc f hok herr hli
    by_cases hx : x.ty = .listTy
    · rw [foldMem, herr x (List.mem_cons_self x xs) acc hx]
    · obtain ⟨a', ha'⟩ := hok x (List.mem_cons_self x xs) acc hx
      rw [foldMem, ha']
      obtain ⟨e, he, hety⟩ := hli
      rcases List.mem_cons.mp he with rfl | he'
      · exact absurd hety hx
      · exact ih a' _ (fun z hz a hnl => hok z (List.mem_cons_of_mem x hz) a hnl)
          (fun z hz a hl => herr z (List.mem_cons_of_mem x hz) a hl) ⟨e, he', hety⟩

theorem buildMapVisit_nonlist_ok (e : Element) (he : e.ty ≠ .listTy)
    (m : String → Option Node) : ∃ m', buildMapVisit (.elem e) m = .ok m' := by
  refine ⟨fun s => if s = (Node.elem e).idAttr then some (Node.elem e) else m s, ?_⟩
  rw [buildMapVisit.eq_def]
  dsimp only
  rw [iter_children_nonlist (show (Node.elem e).ty ≠ _ from he)]
  simp [foldMem]

theorem buildMapVisit_list_err (e : Element) (he : e.ty = .listTy)
    (m : String → Option Node) :
    buildMapVisit (.elem e) m = .error (.attrError "item_elements") := by
  cases e <;> simp only [Element.ty] at he <;> try exact absurd he (by decide)
  rw [buildMapVisit.eq_def]
  simp [_iter_children]

/-- `_build_element_map` raises `item_elements` on any prompt with a list
child. -/
theorem buildMap_listchild_err (p : SP) (hli : ∃ e ∈ p.children, e.ty = .listTy) :
    _build_element_map (.sp p) = .error (.attrError "item_elements") := by
  obtain ⟨pid, cs⟩ := p
  rw [_build_element_map, buildMapVisit.eq_def]
  simp only [_iter_children, SP.children]
  exact foldMem_first_listerr _ cs _ _
    (fun x hx a hnl => buildMapVisit_nonlist_ok x hnl a)
    (fun x hx a hl => buildMapVisit_list_err x hl a) hli

theorem totalCharsVisit_nonlist_ok (e : Element) (he : e.ty ≠ .listTy) (acc : Nat) :
    ∃ a', totalCharsVisit (.elem e) acc = .ok a' := by
  refine ⟨acc + _element_text_length (some (.elem e)), ?_⟩
  rw [totalCharsVisit.eq_def]
  dsimp only
  rw [iter_children_nonlist (show (Node.elem e).ty ≠ _ from he)]
  simp [foldMem]

theorem totalCharsVisit_list_err (e : Element) (he : e.ty = .listTy) (acc : Nat) :
    totalCharsVisit (.elem e) acc = .error (.attrError "item_elements") := by
  cases e <;> simp only [Element.ty] at he <;> try exact absurd he (by decide)
  rw [totalCharsVisit.eq_def]
  simp [_iter_children]

/-- `_structured_total_chars` raises `item_elements` on any prompt with a
list child. -/
theorem totalChars_listchild_err (p : SP) (hli : ∃ e ∈ p.children, e.ty = .listTy) :
    _structured_total_chars (.sp p) = .error (.attrError "item_elements") := by
  obtain ⟨pid, cs⟩ := p
  rw [_structured_total_chars, totalCharsVisit.eq_def]
  simp only [_iter_children, SP.children]
  exact foldMem_first_listerr _ cs _ _
    (fun x hx a hnl => totalCharsVisit_nonlist_ok x hnl a)
    (fun x hx a hl => totalCharsVisit_list_err x hl a) hli

/-- `_build_element_signature_map` raises `AttributeError: key` on every
prompt: its visit reads `element.key` on the root `StructuredPrompt` first. -/
theorem sigMap_sp_err (p : SP) :
    _build_element_signature_map (.sp p) = .error (.attrError "key") := by
  rw [_build_element_signature_map, sigMapVisit.eq_def]
  simp [Node.keyAttr]

/-! ## The claims -/

/-- C1: when `align` compares two present same-variant nodes with children,
the children are matched by `(key, variant type)` with the greedy
first-available policy — each before-child (in order) takes the first
not-yet-consumed after-child of the same key and type, unmatched
before-children stay in place, and the never-consumed after-children are
appended after the whole before pass; a `(before, None)` pair aligns to a
deleted child delta and a `(None, after)` pair to an inserted one. -/
theorem claim_C1_greedy_child_matching :
    (∀ bs as : List Element, _match_children bs as = greedyMatchSpec bs as)
    ∧ (∀ e : Element,
        _align_nodes (some (.elem e)) none
          = .ok (NodeDelta.mk .deleted e.ty.name e.key (some e.eid) none
              (some e.index) none [] [] [])
        ∧ _align_nodes none (some (.elem e))
          = .ok (NodeDelta.mk .inserted e.ty.name e.key none (some e.eid) none
              (some e.index) [] [] [])) :=
  ⟨match_children_eq_greedySpec, fun e => ⟨align_elem_none e, align_none_elem e⟩⟩

/-- C2: a matched same-variant pair whose sibling position changed records
both (differing) indices in its delta and never reports `equal`; when its
attributes and text are identical the status is exactly `moved`. -/
theorem claim_C2_position_change_is_moved (b a : Element) (hty : b.ty = a.ty)
    (hidx : b.index ≠ a.index) (d : NodeDelta)
    (hok : _align_nodes (some (.elem b)) (some (.elem a)) = .ok d) :
    d.before_index = some b.index ∧ d.after_index = some a.index
    ∧ d.status ≠ .equal
    ∧ (_compare_attributes (.elem b) (.elem a) = [] →
        _diff_text (.elem b) (.elem a) = [] → d.status = .moved) := by
  by_cases hnl : b.ty = .listTy
  · rw [align_list_pair hnl (hty ▸ hnl)] at hok
    cases hok
  · rw [align_elem_elem b a hty hnl] at hok
    injection hok with h
    subst h
    refine ⟨rfl, rfl, ?_, ?_⟩
    · simp only [NodeDelta.status]
      by_cases hac : _compare_attributes (.elem b) (.elem a) ≠ []
          ∨ _diff_text (.elem b) (.elem a) ≠ []
      · rw [if_pos hac]; decide
      · rw [if_neg hac, if_pos hidx]; decide
    · intro h1 h2
      simp only [NodeDelta.status]
      rw [if_neg (by simp [h1, h2]), if_pos hidx]

/-- C2 witness: a concrete position-changed, content-identical pair has
status `moved`. -/
theorem claim_C2_position_change_is_moved_witness :
    ∃ d, _align_nodes (some (.elem (.textInterp "k" 0 "b0" "x" none "" "" "v")))
        (some (.elem (.textInterp "k" 1 "a0" "x" none "" "" "v"))) = .ok d
      ∧ d.status = .moved ∧ d.status ≠ .equal := by
  have hok := align_elem_elem (.textInterp "k" 0 "b0" "x" none "" "" "v")
    (.textInterp "k" 1 "a0" "x" none "" "" "v") rfl (by decide)
  have h := claim_C2_position_change_is_moved (.textInterp "k" 0 "b0" "x" none "" "" "v")
    (.textInterp "k" 1 "a0" "x" none "" "" "v") rfl (by decide) _ hok
  exact ⟨_, hok, h.2.2.2 (by decide) (by decide), h.2.2.1⟩

/-- C3 counterexample: `_diff_strings` on two equal strings returns the
empty script, not a single whole-string `equal` opcode. -/
theorem claim_C3_counterexample :
    _diff_strings "ab" "ab" = []
    ∧ ¬ ∃ e : TextEdit, _diff_strings "ab" "ab" = [e] ∧ e.op = .equal := by
  refine ⟨by decide, ?_⟩
  rintro ⟨e, he, -⟩
  rw [show _diff_strings "ab" "ab" = [] from by decide] at he
  cases he

/-- C3 amended: for any two equal strings the leaf text diff returns the
empty edit script (the `before == after` short-circuit of
`_diff_strings`). -/
theorem claim_C3_amended_equal_strings_empty (s : String) :
    _diff_strings s s = [] := by
  simp [_diff_strings]

/-- C4 counterexample: deleting a list interpolation carrying two sub-prompts
produces a childless delta — the subtree does not appear in the delta's
children. -/
theorem claim_C4_counterexample :
    _align_nodes (some (.elem (.listInterp "k" 0 "L" "x" none "" ""
        [SP.mk "p1" [.static 0 0 "s1" "one"], SP.mk "p2" [.static 0 0 "s2" "two"]] "\n")))
        none
      = .ok (NodeDelta.mk .deleted "ListInterpolation" (.strKey "k") (some "L") none
          (some 0) none [] [] [])
    ∧ [SP.mk "p1" [.static 0 0 "s1" "one"], SP.mk "p2" [.static 0 0 "s2" "two"]].length = 2 :=
  ⟨align_elem_none _, rfl⟩

/-- C4 amended: with exactly one side null, the delta's status is
`inserted` (before null) or `deleted` (after null) with the present node's
key, id and index recorded — but its children list is always empty: the
subtree is collapsed to a single childless delta, not recursively aligned
against a null counterpart. -/
theorem claim_C4_amended_one_sided_childless (e : Element) :
    _align_nodes none (some (.elem e))
      = .ok (NodeDelta.mk .inserted e.ty.name e.key none (some e.eid) none
          (some e.index) [] [] [])
    ∧ _align_nodes (some (.elem e)) none
      = .ok (NodeDelta.mk .deleted e.ty.name e.key (some e.eid) none
          (some e.index) none [] [] []) :=
  ⟨align_none_elem e, align_elem_none e⟩

/-- Self-pairs of a list-free child list align without error. -/
theorem traverseList_selfpairs_ok (cs : List Element)
    (hnl : ∀ e ∈ cs, e.ty ≠ .listTy) :
    ∃ ds, traverseList (cs.map (fun c => ((some c : Option Element), (some c : Option Element))))
      (fun pr => _align_nodes (pr.1.map Node.elem) (pr.2.map Node.elem)) = .ok ds := by
  induction cs with
  | nil => exact ⟨[], rfl⟩
  | cons c rest ih =>
    obtain ⟨ds, hds⟩ := ih (fun e he => hnl e (List.mem_cons_of_mem c he))
    have halign := align_elem_elem c c rfl (hnl c (List.mem_cons_self c rest))
    refine ⟨NodeDelta.mk
        (if _compare_attributes (.elem c) (.elem c) ≠ [] ∨ _diff_text (.elem c) (.elem c) ≠ []
          then .modified else if c.index ≠ c.index then .moved else .equal)
        c.ty.name c.key (some c.eid) (some c.eid) (some c.index) (some c.index)
        (_compare_attributes (.elem c) (.elem c)) (_diff_text (.elem c) (.elem c)) [] :: ds, ?_⟩
    simp [traverseList, halign, hds]

/-- C6 (code bug): `diff_structured_prompts` can never return a diff — in
the root call `_align_nodes` evaluates `before.index` on a
`StructuredPrompt`, which defines no `index` attribute, so every call
raises (`AttributeError: index`, unless a child alignment raised first).
In particular the self-diff of a one-static prompt raises instead of
producing an `equal` root with zero counts. -/
theorem claim_C6_structured_diff_always_raises :
    (∀ (renderText : SP → String) (b a : SP), ∃ err,
      diff_structured_prompts renderText b a = .error err)
    ∧ diff_structured_prompts (fun _ => "") (SP.mk "r" [.static 0 0 "s" "hi"])
        (SP.mk "r" [.static 0 0 "s" "hi"]) = .error (.attrError "index") := by
  constructor
  · intro rt b a
    simp only [diff_structured_prompts, align_sp_sp]
    cases htr : traverseList (_match_children b.children a.children)
        (fun pr => _align_nodes (pr.1.map Node.elem) (pr.2.map Node.elem)) with
    | error e => exact ⟨e, by simp⟩
    | ok cds => exact ⟨.attrError "index", by simp⟩
  · obtain ⟨ds, hds⟩ := traverseList_selfpairs_ok [(.static 0 0 "s" "hi")]
      (fun e he => by rcases List.mem_singleton.mp he with rfl; decide)
    simp only [diff_structured_prompts, align_sp_sp, SP.children]
    rw [matchChildren_self, hds]

/-- C9: `_iter_children` reads `item_elements`, which the frozen slots
dataclass `ListInterpolation` (whose field is `items`) does not define; for
every prompt with a list-interpolation child, element-map construction,
total-character counting and self-alignment raise
`AttributeError: item_elements`, and signature-map construction also raises
an `AttributeError` (`key`, already at the root prompt). -/
theorem claim_C9_list_children_break_diff (p : SP)
    (hli : ∃ e ∈ p.children, e.ty = .listTy) :
    _build_element_signature_map (.sp p) = .error (.attrError "key")
    ∧ _build_element_map (.sp p) = .error (.attrError "item_elements")
    ∧ _structured_total_chars (.sp p) = .error (.attrError "item_elements")
    ∧ _align_nodes (some (.sp p)) (some (.sp p)) = .error (.attrError "item_elements") :=
  ⟨sigMap_sp_err p, buildMap_listchild_err p hli, totalChars_listchild_err p hli,
    align_self_sp_listerr p hli⟩

/-- C9 witness at a concrete prompt with one (empty) list-interpolation
child. -/
theorem claim_C9_list_children_break_diff_witness :
    _build_element_signature_map (.sp (SP.mk "P" [.listInterp "k" 0 "L" "x" none "" "" [] ","]))
      = .error (.attrError "key")
    ∧ _build_element_map (.sp (SP.mk "P" [.listInterp "k" 0 "L" "x" none "" "" [] ","]))
      = .error (.attrError "item_elements")
    ∧ _structured_total_chars (.sp (SP.mk "P" [.listInterp "k" 0 "L" "x" none "" "" [] ","]))
      = .error (.attrError "item_elements")
    ∧ _align_nodes (some (.sp (SP.mk "P" [.listInterp "k" 0 "L" "x" none "" "" [] ","])))
        (some (.sp (SP.mk "P" [.listInterp "k" 0 "L" "x" none "" "" [] ","])))
      = .error (.attrError "item_elements") :=
  claim_C9_list_children_break_diff _
    ⟨.listInterp "k" 0 "L" "x" none "" "" [] ",", List.mem_singleton.mpr rfl, rfl⟩

/-! ### C5 support: every `_diff_chunks` delta is faithfully classified -/

deriving instance DecidableEq for Except

/-- The classification invariant of `_diff_chunks` output: a both-sided
delta is `equal` exactly when the texts agree (else `replace`); a delta
missing its before side is an `insert`, one missing its after side a
`delete`. -/
def chunkDeltaFaithful (d : ChunkDelta) : Prop :=
  (∀ bc ac, d.before = some bc → d.after = some ac →
    ∃ bt at', bc.textAttr = .ok bt ∧ ac.textAttr = .ok at'
      ∧ d.op = (if bt = at' then Tag.equal else Tag.replace))
  ∧ (d.before = none → d.op = .insert ∧ d.after ≠ none)
  ∧ (d.after = none → d.op = .delete ∧ d.before ≠ none)

theorem pairDelta_faithful (bc ac : Chunk) (bt at' : String)
    (hbt : bc.textAttr = .ok bt) (hat : ac.textAttr = .ok at') :
    chunkDeltaFaithful (if bt = at' then ChunkDelta.mk .equal (some bc) (some ac)
      else ChunkDelta.mk .replace (some bc) (some ac)) := by
  by_cases heq : bt = at'
  · rw [if_pos heq]
    refine ⟨?_, ?_, ?_⟩
    · intro bc' ac' hb ha
      injection hb with hb'
      injection ha with ha'
      subst hb'; subst ha'
      exact ⟨bt, at', hbt, hat, by rw [if_pos heq]⟩
    · intro hnone; exact Option.noConfusion hnone
    · intro hnone; exact Option.noConfusion hnone
  · rw [if_neg heq]
    refine ⟨?_, ?_, ?_⟩
    · intro bc' ac' hb ha
      injection hb with hb'
      injection ha with ha'
      subst hb'; subst ha'
      exact ⟨bt, at', hbt, hat, by rw [if_neg heq]⟩
    · intro hnone; exact Option.noConfusion hnone
    · intro hnone; exact Option.noConfusion hnone

theorem processPairs_faithful :
    ∀ (l : List (Chunk × Chunk)) (ds : List ChunkDelta),
      processPairs l = .ok ds → ∀ d ∈ ds, chunkDeltaFaithful d := by
  intro l
  induction l with
  | nil =>
    intro ds h d hd
    injection h with h'
    subst h'
    cases hd
  | cons p rest ih =>
    obtain ⟨bc, ac⟩ := p
    intro ds h d hd
    cases hbt : bc.textAttr with
    | error e => simp only [processPairs, hbt] at h; exact Except.noConfusion h
    | ok bt =>
      cases hat : ac.textAttr with
      | error e => simp only [processPairs, hbt, hat] at h; exact Except.noConfusion h
      | ok at' =>
        cases hrec : processPairs rest with
        | error e => simp only [processPairs, hbt, hat, hrec] at h; exact Except.noConfusion h
        | ok ds' =>
          simp only [processPairs, hbt, hat, hrec] at h
          injection h with h'
          subst h'
          rcases List.mem_cons.mp hd with rfl | hd'
          · exact pairDelta_faithful bc ac bt at' hbt hat
          · exact ih ds' hrec d hd'

theorem zipLongest_no_both_none {β γ : Type} :
    ∀ (xs : List β) (ys : List γ),
      ∀ p ∈ zipLongest xs ys, ¬(p.1 = none ∧ p.2 = none) := by
  intro xs
  induction xs with
  | nil =>
    intro ys
    induction ys with
    | nil => intro p hp; simp [zipLongest] at hp
    | cons y ys ihy =>
      intro p hp
      rw [zipLongest] at hp
      rcases List.mem_cons.mp hp with rfl | hp'
      · simp
      · exact ihy p hp'
  | cons x xs ihx =>
    intro ys p hp
    cases ys with
    | nil =>
      rw [zipLongest] at hp
      rcases List.mem_cons.mp hp with rfl | hp'
      · simp
      · exact ihx [] p hp'
    | cons y ys =>
      rw [zipLongest] at hp
      rcases List.mem_cons.mp hp with rfl | hp'
      · simp
      · exact ihx ys p hp'

theorem processReplacePairs_faithful :
    ∀ (l : List (Option Chunk × Option Chunk)),
      (∀ p ∈ l, ¬(p.1 = none ∧ p.2 = none)) →
      ∀ (ds : List ChunkDelta), processReplacePairs l = .ok ds →
      ∀ d ∈ ds, chunkDeltaFaithful d := by
  intro l
  induction l with
  | nil =>
    intro _ ds h d hd
    injection h with h'
    subst h'
    cases hd
  | cons p rest ih =>
    obtain ⟨ob, oa⟩ := p
    intro hnn ds h d hd
    cases ob with
    | none =>
      cases hrec : processReplacePairs rest with
      | error e => simp only [processReplacePairs, hrec] at h; exact Except.noConfusion h
      | ok ds' =>
        simp only [processReplacePairs, hrec] at h
        injection h with h'
        subst h'
        rcases List.mem_cons.mp hd with rfl | hd'
        · have hoa : oa ≠ none :=
            fun hc => hnn (none, oa) (List.mem_cons_self _ _) ⟨rfl, hc⟩
          refine ⟨?_, ?_, ?_⟩
          · intro bc ac hb ha; exact Option.noConfusion hb
          · intro _; exact ⟨rfl, hoa⟩
          · intro hanone; exact absurd hanone hoa
        · exact ih (fun q hq => hnn q (List.mem_cons_of_mem _ hq)) ds' hrec d hd'
    | some bc =>
      cases oa with
      | none =>
        cases hrec : processReplacePairs rest with
        | error e => simp only [processReplacePairs, hrec] at h; exact Except.noConfusion h
        | ok ds' =>
          simp only [processReplacePairs, hrec] at h
          injection h with h'
          subst h'
          rcases List.mem_cons.mp hd with rfl | hd'
          · refine ⟨?_, ?_, ?_⟩
            · intro bc' ac' hb ha; exact Option.noConfusion ha
            · intro hbnone; exact Option.noConfusion hbnone
            · intro _; refine ⟨rfl, ?_⟩; exact fun hc => Option.noConfusion hc
          · exact ih (fun q hq => hnn q (List.mem_cons_of_mem _ hq)) ds' hrec d hd'
      | some ac =>
        cases hbt : bc.textAttr with
        | error e => simp only [processReplacePairs, hbt] at h; exact Except.noConfusion h
        | ok bt =>
          cases hat : ac.textAttr with
          | error e => simp only [processReplacePairs, hbt, hat] at h; exact Except.noConfusion h
          | ok at' =>
            cases hrec : processReplacePairs rest with
            | error e => simp only [processReplacePairs, hbt, hat, hrec] at h; exact Except.noConfusion h
            | ok ds' =>
              simp only [processReplacePairs, hbt, hat, hrec] at h
              injection h with h'
              subst h'
              rcases List.mem_cons.mp hd with rfl | hd'
              · exact pairDelta_faithful bc ac bt at' hbt hat
              · exact ih (fun q hq => hnn q (List.mem_cons_of_mem _ hq)) ds' hrec d hd'

theorem processOpcode_faithful (bl al : List Chunk) (oc : SeqMatch.Opcode)
    (ds : List ChunkDelta) (h : processOpcode bl al oc = .ok ds) :
    ∀ d ∈ ds, chunkDeltaFaithful d := by
  obtain ⟨tag, i1, i2, j1, j2⟩ := oc
  cases tag with
  | equal => exact processPairs_faithful _ ds (by simpa [processOpcode] using h)
  | replace =>
    exact processReplacePairs_faithful _ (zipLongest_no_both_none _ _) ds
      (by simpa [processOpcode] using h)
  | delete =>
    intro d hd
    have h' : ds = (listSlice bl i1 i2).map (fun c => ChunkDelta.mk .delete (some c) none) := by
      have := h.symm
      simpa [processOpcode] using this
    subst h'
    rcases List.mem_map.mp hd with ⟨c, -, rfl⟩
    refine ⟨?_, ?_, ?_⟩
    · intro bc ac hb ha; exact Option.noConfusion ha
    · intro hbnone; exact Option.noConfusion hbnone
    · intro _; refine ⟨rfl, ?_⟩; exact fun hc => Option.noConfusion hc
  | insert =>
    intro d hd
    have h' : ds = (listSlice al j1 j2).map (fun c => ChunkDelta.mk .insert none (some c)) := by
      have := h.symm
      simpa [processOpcode] using this
    subst h'
    rcases List.mem_map.mp hd with ⟨c, -, rfl⟩
    refine ⟨?_, ?_, ?_⟩
    · intro bc ac hb ha; exact Option.noConfusion hb
    · intro _; refine ⟨rfl, ?_⟩; exact fun hc => Option.noConfusion hc
    · intro hanone; exact Option.noConfusion hanone

theorem processOpcodes_faithful (bl al : List Chunk) :
    ∀ (ocs : List SeqMatch.Opcode) (ds : List ChunkDelta),
      processOpcodes bl al ocs = .ok ds → ∀ d ∈ ds, chunkDeltaFaithful d := by
  intro ocs
  induction ocs with
  | nil =>
    intro ds h d hd
    injection h with h'
    subst h'
    cases hd
  | cons oc rest ih =>
    intro ds h d hd
    cases hoc : processOpcode bl al oc with
    | error e => simp only [processOpcodes, hoc] at h; exact Except.noConfusion h
    | ok ds1 =>
      cases hrec : processOpcodes bl al rest with
      | error e => simp only [processOpcodes, hoc, hrec] at h; exact Except.noConfusion h
      | ok ds2 =>
        simp only [processOpcodes, hoc, hrec] at h
        injection h with h'
        subst h'
        rcases List.mem_append.mp hd with h1 | h2
        · exact processOpcode_faithful bl al oc ds1 hoc d h1
        · exact ih ds2 hrec d h2

/-- C5: in the rendered (chunk-level) diff, after aligning the two chunk
sequences by structural signature, every emitted delta is classified by
text content: a positionally paired before/after chunk is `equal` exactly
when the texts are byte-identical and `replace` when they differ (this
covers both the reclassification of equal-by-signature pairs with differing
text to `replace` and of replace-run pairs with identical text to `equal`),
and leftover unbalanced members become `insert`/`delete` deltas. -/
theorem claim_C5_chunk_reclassification (before after : List Chunk)
    (bsig asig : String → Option (List String)) (deltas : List ChunkDelta)
    (hok : _diff_chunks before after bsig asig = .ok deltas) :
    ∀ d ∈ deltas,
      (∀ bc ac, d.before = some bc → d.after = some ac →
        ∃ bt at', bc.textAttr = .ok bt ∧ ac.textAttr = .ok at'
          ∧ d.op = (if bt = at' then Tag.equal else Tag.replace))
      ∧ (d.before = none → d.op = .insert ∧ d.after ≠ none)
      ∧ (d.after = none → d.op = .delete ∧ d.before ≠ none) := by
  intro d hd
  exact processOpcodes_faithful before after _ deltas (by simpa [_diff_chunks] using hok) d hd

/-- C5 witness: a concrete two-chunk diff in which the signature-equal first
pair with differing text comes out `replace`. -/
theorem claim_C5_chunk_reclassification_witness :
    ∃ bt at', (Chunk.textChunk "x" "e1").textAttr = .ok bt
      ∧ (Chunk.textChunk "y" "e1").textAttr = .ok at'
      ∧ (ChunkDelta.mk .replace (some (Chunk.textChunk "x" "e1"))
          (some (Chunk.textChunk "y" "e1"))).op = (if bt = at' then Tag.equal else Tag.replace) := by
  have hok : _diff_chunks [Chunk.textChunk "x" "e1", Chunk.textChunk "s" "e2"]
      [Chunk.textChunk "y" "e1", Chunk.textChunk "s" "e2"]
      (fun _ => none) (fun _ => none)
      = .ok [ChunkDelta.mk .replace (some (Chunk.textChunk "x" "e1"))
          (some (Chunk.textChunk "y" "e1")),
        ChunkDelta.mk .equal (some (Chunk.textChunk "s" "e2"))
          (some (Chunk.textChunk "s" "e2"))] := by decide
  exact (claim_C5_chunk_reclassification _ _ _ _ _ hok _ (List.mem_cons_self _ _)).1
    (Chunk.textChunk "x" "e1") (Chunk.textChunk "y" "e1") rfl rfl

/-! ### C7: the single-parent discipline -/

/-- C7: attaching a prompt that already has a different parent raises
`PromptReuseError` carrying the prompt and both parents and leaves the link
unchanged; re-attaching to the same parent is a no-op; and under any
sequence of attach attempts an already-set parent link never changes, so a
tree has at most one logical parent across its lifetime. -/
theorem claim_C7_single_parent (pid q p : String) (st : Option String) :
    (q ≠ p → _set_parent_element pid (some q) p = .error ⟨pid, q, p⟩
      ∧ applySetParent pid (some q) p = some q)
    ∧ (_set_parent_element pid (some p) p = .ok (some p)
      ∧ applySetParent pid (some p) p = some p)
    ∧ (st = some q → ∀ parents : List String,
        parents.foldl (applySetParent pid) st = some q) := by
  have hstep : ∀ x, applySetParent pid (some q) x = some q := by
    intro x
    by_cases hx : (some q : Option String) = some x
    · simp only [applySetParent, _set_parent_element, if_pos hx]
    · simp only [applySetParent, _set_parent_element, if_neg hx]
  refine ⟨?_, ?_, ?_⟩
  · intro hqp
    have h1 : _set_parent_element pid (some q) p = .error ⟨pid, q, p⟩ := by
      rw [_set_parent_element, if_neg (by simpa using hqp)]
    exact ⟨h1, by simp only [applySetParent, h1]⟩
  · have h1 : _set_parent_element pid (some p) p = .ok (some p) := by
      rw [_set_parent_element, if_pos rfl]
    exact ⟨h1, by simp only [applySetParent, h1]⟩
  · rintro rfl parents
    induction parents with
    | nil => rfl
    | cons x xs ih => rw [List.foldl_cons, hstep x]; exact ih

/-- C7 witness at concrete tokens. -/
theorem claim_C7_single_parent_witness :
    (_set_parent_element "t1" (some "par1") "par2"
        = .error ⟨"t1", "par1", "par2"⟩
      ∧ applySetParent "t1" (some "par1") "par2" = some "par1")
    ∧ (_set_parent_element "t1" (some "par2") "par2" = .ok (some "par2")
      ∧ applySetParent "t1" (some "par2") "par2" = some "par2")
    ∧ ["par2", "par1", "par3"].foldl (applySetParent "t1") (some "par1") = some "par1" := by
  have h := claim_C7_single_parent "t1" "par1" "par2" (some "par1")
  exact ⟨h.1 (by decide), h.2.1, h.2.2 rfl ["par2", "par1", "par3"]⟩

/-! ### C8: the char_ratio formula -/

/-- C8: whenever `_compute_structured_metrics` returns, `char_ratio` equals
`span_chars` divided by the before tree's total text-character count when
that count is nonzero, and by the after tree's total floored at 1 when the
before total is zero. -/
theorem claim_C8_char_ratio (renderText : SP → String) (root : NodeDelta)
    (before after : SP) (m : StructuredDiffMetrics)
    (hok : _compute_structured_metrics renderText root before after = .ok m) :
    ∃ tb, _structured_total_chars (.sp before) = .ok tb
      ∧ ((tb ≠ 0 ∧ m.char_ratio = (m.span_chars : ℚ) / (tb : ℚ))
        ∨ (tb = 0 ∧ ∃ ta, _structured_total_chars (.sp after) = .ok ta
            ∧ m.char_ratio = (m.span_chars : ℚ) / ((max ta 1 : Nat) : ℚ))) := by
  simp only [_compute_structured_metrics] at hok
  cases hbm : _build_element_map (.sp before) with
  | error e => rw [hbm] at hok; exact Except.noConfusion hok
  | ok bm =>
    rw [hbm] at hok
    cases ham : _build_element_map (.sp after) with
    | error e => rw [ham] at hok; exact Except.noConfusion hok
    | ok am =>
      rw [ham] at hok
      cases htb : _structured_total_chars (.sp before) with
      | error e => rw [htb] at hok; exact Except.noConfusion hok
      | ok tb =>
        rw [htb] at hok
        dsimp only at hok
        refine ⟨tb, rfl, ?_⟩
        by_cases h0 : tb = 0
        · rw [if_pos h0] at hok
          cases hta : _structured_total_chars (.sp after) with
          | error e =>
            rw [hta] at hok
            exact Except.noConfusion hok
          | ok ta =>
            rw [hta] at hok
            simp only [Except.map] at hok
            cases hos : _structured_order_score renderText (.sp before) (.sp after) with
            | error e => rw [hos] at hok; exact Except.noConfusion hok
            | ok os =>
              rw [hos] at hok
              injection hok with hm
              subst hm
              exact Or.inr ⟨h0, ta, rfl, rfl⟩
        · rw [if_neg h0] at hok
          cases hos : _structured_order_score renderText (.sp before) (.sp after) with
          | error e => rw [hos] at hok; exact Except.noConfusion hok
          | ok os =>
            rw [hos] at hok
            injection hok with hm
            subst hm
            exact Or.inl ⟨h0, rfl⟩

/-- Concrete before prompt for the char-ratio witness. -/
def c8_before : SP := SP.mk "b" [.static 0 0 "s" "hi"]

/-- Concrete after prompt for the char-ratio witness. -/
def c8_after : SP := SP.mk "a" []

/-- Concrete root delta for the char-ratio witness. -/
def c8_root : NodeDelta := NodeDelta.mk .equal "Static" (.intKey 0) none none none none [] [] []

/-- The metrics the witness inputs produce. -/
def c8_metrics : StructuredDiffMetrics :=
  { edit_count := 0, span_chars := 0, char_ratio := 0, order_score := 0 }

theorem c8_hok :
    _compute_structured_metrics (fun _ => "") c8_root c8_before c8_after = .ok c8_metrics := by
  simp [_compute_structured_metrics, _build_element_map, buildMapVisit, foldMem,
    _iter_children, _structured_total_chars, totalCharsVisit, _element_text_length,
    _structured_order_score, orderVisit, metricsVisit, metricsVisitList,
    c8_before, c8_after, c8_root, c8_metrics, SP.children, List.isEmpty]
  rfl

/-- C8 witness: the char-ratio law instantiated on a concrete successful run. -/
theorem claim_C8_char_ratio_witness :
    _compute_structured_metrics (fun _ => "") c8_root c8_before c8_after = .ok c8_metrics
    ∧ ∃ tb, _structured_total_chars (.sp c8_before) = .ok tb
      ∧ ((tb ≠ 0 ∧ c8_metrics.char_ratio = (c8_metrics.span_chars : ℚ) / (tb : ℚ))
        ∨ (tb = 0 ∧ ∃ ta, _structured_total_chars (.sp c8_after) = .ok ta
            ∧ c8_metrics.char_ratio = (c8_metrics.span_chars : ℚ) / ((max ta 1 : Nat) : ℚ))) :=
  ⟨c8_hok, claim_C8_char_ratio (fun _ => "") c8_root c8_before c8_after c8_metrics c8_hok⟩

/-! ### C10: after-priority attribution in the per-element aggregation -/

theorem perElementStep_none_iff (m : String → Option ElementRenderChange)
    (d : ChunkDelta) (m' : String → Option ElementRenderChange)
    (hok : perElementStep m d = .ok m') (id : String) :
    m' id = none ↔ (m id = none ∧ ¬(_chunk_element d = some id ∧ id ≠ "")) := by
  rw [perElementStep] at hok
  cases hce : _chunk_element d with
  | none =>
    rw [hce] at hok
    dsimp only at hok
    injection hok with hm
    subst hm
    simp
  | some eid =>
    rw [hce] at hok
    dsimp only at hok
    by_cases he : eid = ""
    · rw [if_pos he] at hok
      injection hok with hm
      subst hm
      subst he
      constructor
      · intro h
        refine ⟨h, ?_⟩
        rintro ⟨hid, hne⟩
        injection hid with hid
        exact hne hid.symm
      · exact fun h => h.1
    · rw [if_neg he] at hok
      cases htd : d.text_delta with
      | error e => rw [htd] at hok; exact Except.noConfusion hok
      | ok ar =>
        rw [htd] at hok
        injection hok with hm
        subst hm
        by_cases hid : id = eid
        · subst hid
          simp only [if_pos rfl]
          constructor
          · intro h; exact Option.noConfusion h
          · rintro ⟨_, hno⟩
            exact absurd ⟨trivial, he⟩ hno
        · simp only [if_neg hid]
          constructor
          · intro h
            refine ⟨h, ?_⟩
            rintro ⟨hce', _⟩
            injection hce' with hce'
            exact hid hce'.symm
          · exact fun h => h.1

theorem perElementSummaries_none_iff (deltas : List ChunkDelta) :
    ∀ (m m' : String → Option ElementRenderChange),
      perElementSummaries deltas m = .ok m' →
      ∀ id, m' id = none
        ↔ (m id = none ∧ ∀ d ∈ deltas, ¬(_chunk_element d = some id ∧ id ≠ "")) := by
  induction deltas with
  | nil =>
    intro m m' hok id
    rw [perElementSummaries] at hok
    injection hok with hm
    subst hm
    simp
  | cons d ds ih =>
    intro m m' hok id
    rw [perElementSummaries] at hok
    cases hstep : perElementStep m d with
    | error e => rw [hstep] at hok; exact Except.noConfusion hok
    | ok m1 =>
      rw [hstep] at hok
      rw [ih m1 m' hok id, perElementStep_none_iff m d m1 hstep id]
      constructor
      · rintro ⟨⟨h0, hd⟩, hds⟩
        exact ⟨h0, fun x hx => by
          rcases List.mem_cons.mp hx with rfl | hx'
          · exact hd
          · exact hds x hx'⟩
      · rintro ⟨h0, hall⟩
        exact ⟨⟨h0, hall d (List.mem_cons_self d ds)⟩,
          fun x hx => hall x (List.mem_cons_of_mem d hx)⟩

/-- C10: `_chunk_element` attributes a chunk delta to the after chunk's
element id whenever an after chunk is present, and to the before chunk's id
only when there is no after chunk; an element id acquires a summary entry
exactly when some delta is attributed to it with a non-empty id; and a
replace pair of text chunks is counted entirely — operation count and both
character totals — under the after element's id, with nothing under the
before element's id when the two differ. -/
theorem claim_C10_after_priority :
    (∀ (d : ChunkDelta) (c : Chunk), d.after = some c →
        _chunk_element d = some c.element_id)
    ∧ (∀ (d : ChunkDelta) (c : Chunk), d.after = none → d.before = some c →
        _chunk_element d = some c.element_id)
    ∧ (∀ (deltas : List ChunkDelta) (m : String → Option ElementRenderChange),
        perElementSummaries deltas (fun _ => none) = .ok m →
        ∀ id, m id = none ↔ ∀ d ∈ deltas, ¬(_chunk_element d = some id ∧ id ≠ ""))
    ∧ (∀ (bt av btid atid : String), atid ≠ "" →
        ∃ m, perElementSummaries
            [⟨.replace, some (.textChunk bt btid), some (.textChunk av atid)⟩]
            (fun _ => none) = .ok m
          ∧ m atid = some { element_id := atid, replaces := 1, text_added := av.length, text_removed := bt.length }
          ∧ (btid ≠ atid → m btid = none)) := by
  refine ⟨?_, ?_, ?_, ?_⟩
  · intro d c hc
    rw [_chunk_element, hc]
  · intro d c ha hb
    rw [_chunk_element, ha, hb]
  · intro deltas m hok id
    have h := perElementSummaries_none_iff deltas (fun _ => none) m hok id
    simpa using h
  · intro bt av btid atid hat
    refine ⟨fun s => if s = atid then some { element_id := atid, replaces := 1, text_added := av.length, text_removed := bt.length } else none, ?_, ?_, ?_⟩
    · simp only [perElementSummaries, perElementStep, _chunk_element,
        ChunkDelta.text_delta, Chunk.textAttr, Chunk.element_id, Except.map]
      rw [if_neg hat]
      simp
    · simp
    · intro hne
      simp [hne]

/-- C10 witness: a concrete replace pair lands under the after id only. -/
theorem claim_C10_after_priority_witness :
    _chunk_element ⟨.replace, some (.textChunk "x" "b1"), some (.textChunk "y" "a1")⟩
        = some "a1"
    ∧ _chunk_element ⟨.delete, some (.textChunk "x" "b1"), none⟩ = some "b1"
    ∧ (∃ m, perElementSummaries
          [⟨.replace, some (.textChunk "x" "b1"), some (.textChunk "y" "a1")⟩]
          (fun _ => none) = .ok m
        ∧ m "a1" = some { element_id := "a1", replaces := 1, text_added := 1, text_removed := 1 }
        ∧ m "b1" = none)
    ∧ (fun _ : String => (none : Option ElementRenderChange)) "b1" = none := by
  have h := claim_C10_after_priority
  refine ⟨h.1 _ (.textChunk "y" "a1") rfl, h.2.1 _ (.textChunk "x" "b1") rfl rfl, ?_, ?_⟩
  · obtain ⟨m, hm, hat, hbt⟩ := h.2.2.2 "x" "y" "b1" "a1" (by decide)
    exact ⟨m, hm, hat, hbt (by decide)⟩
  · exact (h.2.2.1 [] (fun _ => none) rfl "b1").mpr (by simp)

end TPrompts
